import Mathlib

/-!
# FastFader: a cross-fading pixel buffer

A shallow embedding of `FastFader.cpp` / `FastFader.h`.

Modelling conventions
* C++ `int` is 32 bits wide.  An `int` value is an `Int` between `INT_MIN` and `INT_MAX`.  The
  products by 100 that `push` takes in `int` are reduced to 32-bit two's complement (`wrapInt`),
  which is what the overflowing multiplication leaves in a register; the sums and differences
  of the source stay within range for the steps `1 .. fader_steps` of the loop and are taken
  as they are.  The `int` division faults on the quotient `INT_MIN / -1` as it does on a zero
  divisor.
* `PixelBuffer` and `LEDs` are pointers supplied by the caller and indexed without a length
  check, so each is modelled as the memory reachable through the pointer: a total map from a
  pixel index and a channel (0, 1, 2) to the stored value.  The frame proper is the part at
  indices `0 .. NumLEDs - 1`.
* A `CRGB` channel is an unsigned 8-bit value: constructing a `CRGB` from `int`s reduces each
  argument modulo 256.
* `double` values are elements of an ordered field `K` with a floor function; `log` (from
  `math.h`) is a parameter `ln : K → K`.  A division whose divisor is zero is recorded as a
  fault instead of producing an infinity or a NaN.
  The arithmetic of `K` is exact.  The values of `NO_DECAY` and `LINEAR_DECAY`, and those of
  `LOGARITHMIC_DECAY` at the first and the last step, are integers computed without rounding
  in `double` as well; at the other steps of `LOGARITHMIC_DECAY` the rounding of `double`
  operations is not represented.
* `FLED.show()` and `delay(ms)` are recorded in a trace of events.
-/

/-- NO_DECAY, `#define NO_DECAY (-1)`. -/
def NO_DECAY : Int := -1

/-- LINEAR_DECAY, `#define LINEAR_DECAY (0)`. -/
def LINEAR_DECAY : Int := 0

/-- LOGARITHMIC_DECAY, `#define LOGARITHMIC_DECAY (1)`. -/
def LOGARITHMIC_DECAY : Int := 1

/-- INT_MIN, the least `int`. -/
def INT_MIN : Int := -2147483648

/-- INT_MAX, the greatest `int`. -/
def INT_MAX : Int := 2147483647

/-- The 32-bit two's complement `int` that an `int` operation leaves when its exact result
is `x`. -/
def wrapInt (x : Int) : Int := (x + 2147483648) % 4294967296 - 2147483648

/-- The private fields of `class FastFader` (the `FLED` handle carries no data of interest). -/
structure FastFader where
  NumLEDs : Int
  PixelBuffer : Int → Int → Int
  LEDs : Int → Int → Int

/-- What can go wrong while evaluating `push`: `divByZero` is a division that cannot be carried
out (a zero divisor or, for `int`, the quotient `INT_MIN / -1`, which raises the same divide
error); `uninitialised` is the use of a weight that no block has assigned. -/
inductive Fault where
  | divByZero
  | uninitialised
  deriving DecidableEq, Repr

/-- What `push` does to the outside world: flush the `LEDs` frame, or sleep. -/
inductive Event where
  | present (frame : List (Int × Int × Int))
  | delay (ms : Int)
  deriving DecidableEq, Repr

/-- The three `double` locals `previous_weight`, `current_weight`, `fader_weight`. -/
structure Weights (K : Type) where
  previous_weight : K
  current_weight : K
  fader_weight : K

/-- The variables of the fade loop of `push` that change from one step to the next. -/
structure FadeState where
  decay_type : Int
  LEDs : Int → Int → Int
  trace : List Event

/-- The loop `for (int i = start; ...; i++) body`, run for `n` iterations. -/
def forLoop {σ : Type} (body : Int → σ → σ) : Nat → Int → σ → σ
  | 0, _, s => s
  | n + 1, i, s => forLoop body n (i + 1) (body i s)

/-- The loop `for (int i = start; ...; i++) body` whose body may fault, run for `n`
iterations. -/
def forLoopM {σ : Type} (body : Int → σ → Except Fault σ) : Nat → Int → σ → Except Fault σ
  | 0, _, s => Except.ok s
  | n + 1, i, s =>
    match body i s with
    | Except.error e => Except.error e
    | Except.ok s1 => forLoopM body n (i + 1) s1

/-- The assignment `buf[i][c] = v`. -/
def store (buf : Int → Int → Int) (i c v : Int) : Int → Int → Int :=
  fun j k => if j = i ∧ k = c then v else buf j k

/-- Conversion of an `int` to the `uint8_t` of a `CRGB` channel. -/
def toUInt8 (x : Int) : Int := x % 256

/-- The assignment `LEDs[i] = CRGB(r, g, b)`. -/
def storeCRGB (leds : Int → Int → Int) (i r g b : Int) : Int → Int → Int :=
  store (store (store leds i 0 (toUInt8 r)) i 1 (toUInt8 g)) i 2 (toUInt8 b)

/-- The frame that `FLED.show()` flushes: the pixels `0 .. NumLEDs - 1` of `LEDs`. -/
def shownFrame (num_leds : Int) (leds : Int → Int → Int) : List (Int × Int × Int) :=
  (List.range num_leds.toNat).map
    (fun (i : Nat) => (leds (i : Int) 0, leds (i : Int) 1, leds (i : Int) 2))

/-- The conversion `int(x)` of a `double`: truncation toward zero. -/
def toInt {K : Type} [LinearOrderedField K] [FloorRing K] (x : K) : Int :=
  if 0 ≤ x then ⌊x⌋ else ⌈x⌉

/-- Division of `double`s, faulting on a zero divisor. -/
def fdiv {K : Type} [LinearOrderedField K] (a b : K) : Except Fault K :=
  if b = 0 then Except.error Fault.divByZero else Except.ok (a / b)

/-- Division of `int`s (truncating), faulting on a zero divisor and on `INT_MIN / -1`, whose
quotient is not an `int`. -/
def idiv (a b : Int) : Except Fault Int :=
  if b = 0 then Except.error Fault.divByZero
  else if a = INT_MIN ∧ b = -1 then Except.error Fault.divByZero
  else Except.ok (Int.tdiv a b)

namespace FastFader

/-- The method `bind(pixel_buffer, leds, num_leds, fast_led)`. -/
def bind (pixel_buffer leds : Int → Int → Int) (num_leds : Int) : FastFader :=
  forLoop
    (fun i s =>
      { s with
        LEDs := storeCRGB s.LEDs i 0 0 0
        PixelBuffer := store (store (store s.PixelBuffer i 0 0) i 1 0) i 2 0 })
    num_leds.toNat 0
    { NumLEDs := num_leds, PixelBuffer := pixel_buffer, LEDs := leds }

/-- The method `clear()`. -/
def clear (s : FastFader) : FastFader :=
  forLoop
    (fun i s =>
      forLoop (fun channel s => { s with PixelBuffer := store s.PixelBuffer i channel 0 }) 3 0 s)
    s.NumLEDs.toNat 0 s

/-- The position that `set_pixel` indexes `PixelBuffer` with, after its two clipping tests. -/
def clip_pos (s : FastFader) (pos : Int) : Int :=
  let pos := if pos < 0 then 0 else pos
  if pos > s.NumLEDs then s.NumLEDs else pos

/-- The value that `set_pixel` stores, after its two clipping tests. -/
def clip_value (value : Int) : Int :=
  let value := if value > 255 then 255 else value
  if value < 0 then 0 else value

/-- The method `set_pixel(int pos, int value, int channel)`. -/
def set_pixel (s : FastFader) (pos value channel : Int) : FastFader :=
  let pos := clip_pos s pos
  let value := clip_value value
  if channel < 0 ∨ channel > 2 then
    forLoop (fun c s => { s with PixelBuffer := store s.PixelBuffer pos c value }) 3 0 s
  else
    { s with PixelBuffer := store s.PixelBuffer pos channel value }

/-- The method `set_pixel(int pos, int value[3])`. -/
def set_pixel_rgb (s : FastFader) (pos : Int) (value : Int → Int) : FastFader :=
  forLoop (fun c s => set_pixel s pos (value c) c) 3 0 s

/-- The method `set_pixel(int pos, int value)`. -/
def set_pixel_all (s : FastFader) (pos value : Int) : FastFader :=
  forLoop (fun c s => set_pixel s pos value c) 3 0 s

/-- The method `set_pixel(int pos)`. -/
def set_pixel_default (s : FastFader) (pos : Int) : FastFader :=
  set_pixel s pos 255 (-1)

/-- The method `get_pixel(int pos)`: the three channels at `PixelBuffer[pos]`. -/
def get_pixel (s : FastFader) (pos : Int) : Int → Int :=
  s.PixelBuffer pos

/-- The method `set_frame(int (*frame)[3])`. -/
def set_frame (s : FastFader) (frame : Int → Int → Int) : FastFader :=
  forLoop
    (fun i s => forLoop (fun channel s => set_pixel s i (frame i channel) channel) 3 0 s)
    s.NumLEDs.toNat 0 s

/-- The test `if (decay_type < -1 || decay_type > 1) decay_type = LOGARITHMIC_DECAY;` that opens
every fade step: the value of `decay_type` after it. -/
def resolveDecay (decay_type : Int) : Int :=
  if decay_type < -1 ∨ decay_type > 1 then LOGARITHMIC_DECAY else decay_type

/-- The weights of one fade step: the three `if (decay_type == ...)` blocks of `push`, run in
order on locals that start uninitialised. -/
def stepWeights {K : Type} [LinearOrderedField K] (ln : K → K) (log_base : K)
    (fader_steps current_step decay_type : Int) : Except Fault (Option (Weights K)) :=
  let w : Option (Weights K) := none
  let w : Option (Weights K) :=
    if decay_type = NO_DECAY then
      some { previous_weight := 0, current_weight := 1, fader_weight := 1 }
    else w
  let w : Option (Weights K) :=
    if decay_type = LINEAR_DECAY then
      some { previous_weight := ((wrapInt (100 * (fader_steps - current_step)) : Int) : K)
             current_weight := ((wrapInt (100 * (current_step - 1)) : Int) : K)
             fader_weight := ((wrapInt (100 * (fader_steps - 1)) : Int) : K) }
    else w
  if decay_type = LOGARITHMIC_DECAY then
    match fdiv (ln ((fader_steps - current_step + 1 : Int) : K)) log_base with
    | Except.error e => Except.error e
    | Except.ok q1 =>
      let current_weight : K := 100 - (100 * q1)
      match fdiv (ln ((current_step : Int) : K)) log_base with
      | Except.error e => Except.error e
      | Except.ok q2 =>
        let previous_weight : K := 100 - (100 * q2)
        Except.ok (some { previous_weight := previous_weight
                          current_weight := current_weight
                          fader_weight := current_weight + previous_weight })
  else Except.ok w

/-- One channel of a fade step:
`int(((PixelBuffer[i][c] * current_weight) + (fader_cache[i][c] * previous_weight)) / fader_weight)`. -/
def blend {K : Type} [LinearOrderedField K] [FloorRing K] (w : Option (Weights K))
    (target start : Int) : Except Fault Int :=
  match w with
  | none => Except.error Fault.uninitialised
  | some w =>
    match fdiv (((target : K) * w.current_weight) + ((start : K) * w.previous_weight))
        w.fader_weight with
    | Except.error e => Except.error e
    | Except.ok q => Except.ok (toInt q)

/-- The loop of `push` that sends one fade step to the LED interface. -/
def sendStep {K : Type} [LinearOrderedField K] [FloorRing K] (s : FastFader)
    (fader_cache : Int → Int → Int) (w : Option (Weights K)) (leds : Int → Int → Int) :
    Except Fault (Int → Int → Int) :=
  forLoopM
    (fun i leds =>
      match blend w (s.PixelBuffer i 0) (fader_cache i 0) with
      | Except.error e => Except.error e
      | Except.ok r =>
        match blend w (s.PixelBuffer i 1) (fader_cache i 1) with
        | Except.error e => Except.error e
        | Except.ok g =>
          match blend w (s.PixelBuffer i 2) (fader_cache i 2) with
          | Except.error e => Except.error e
          | Except.ok b => Except.ok (storeCRGB leds i r g b))
    s.NumLEDs.toNat 0 leds

/-- The body of the fade loop of `push` for the step `current_step`. -/
def fadeStep {K : Type} [LinearOrderedField K] [FloorRing K] (ln : K → K) (s : FastFader)
    (fader_cache : Int → Int → Int) (step_delay fader_steps : Int) (log_base : K)
    (current_step : Int) (st : FadeState) : Except Fault FadeState :=
  let decay_type := resolveDecay st.decay_type
  match stepWeights ln log_base fader_steps current_step decay_type with
  | Except.error e => Except.error e
  | Except.ok w =>
    match sendStep s fader_cache w st.LEDs with
    | Except.error e => Except.error e
    | Except.ok leds =>
      Except.ok
        { decay_type := decay_type
          LEDs := leds
          trace := st.trace ++ [Event.present (shownFrame s.NumLEDs leds), Event.delay step_delay] }

/-- The copy of the present LED interface that `push` takes before fading (the array
`fader_cache`, whose cells start out indeterminate and are read only after being written). -/
def snapshot (s : FastFader) : Int → Int → Int :=
  forLoop
    (fun i cache => forLoop (fun channel cache => store cache i channel (s.LEDs i channel)) 3 0 cache)
    s.NumLEDs.toNat 0 (fun _ _ => 0)

/-- The method `push(int fader_delay, int fader_steps, int decay_type)`: the state it leaves
and the frames and delays it issues, or the fault it runs into. -/
def push {K : Type} [LinearOrderedField K] [FloorRing K] (ln : K → K) (s : FastFader)
    (fader_delay fader_steps decay_type : Int) : Except Fault (FastFader × List Event) :=
  let fader_cache := snapshot s
  match idiv fader_delay fader_steps with
  | Except.error e => Except.error e
  | Except.ok step_delay =>
    let log_base : K := ln ((fader_steps : Int) : K)
    match forLoopM (fadeStep ln s fader_cache step_delay fader_steps log_base)
        fader_steps.toNat 1 { decay_type := decay_type, LEDs := s.LEDs, trace := [] } with
    | Except.error e => Except.error e
    | Except.ok st => Except.ok ({ s with LEDs := st.LEDs }, st.trace)

/-- The weights of step `current_step` read off the three blocks of `push` for a recognised
`decay_type`, with the quotients taken in `K` (used once no division can fault). -/
def weightsAt {K : Type} [LinearOrderedField K] (ln : K → K)
    (fader_steps current_step decay_type : Int) : Weights K :=
  if decay_type = NO_DECAY then
    { previous_weight := 0, current_weight := 1, fader_weight := 1 }
  else if decay_type = LINEAR_DECAY then
    { previous_weight := ((wrapInt (100 * (fader_steps - current_step)) : Int) : K)
      current_weight := ((wrapInt (100 * (current_step - 1)) : Int) : K)
      fader_weight := ((wrapInt (100 * (fader_steps - 1)) : Int) : K) }
  else
    { previous_weight := 100 - (100 * (ln ((current_step : Int) : K) / ln ((fader_steps : Int) : K)))
      current_weight :=
        100 - (100 * (ln ((fader_steps - current_step + 1 : Int) : K) / ln ((fader_steps : Int) : K)))
      fader_weight :=
        (100 - (100 * (ln ((fader_steps - current_step + 1 : Int) : K) / ln ((fader_steps : Int) : K))))
          + (100 - (100 * (ln ((current_step : Int) : K) / ln ((fader_steps : Int) : K)))) }

/-- The integer that a fade step computes for one channel, before it is stored in a `CRGB`. -/
def blendValue {K : Type} [LinearOrderedField K] [FloorRing K] (w : Weights K)
    (target start : Int) : Int :=
  toInt ((((target : K) * w.current_weight) + ((start : K) * w.previous_weight)) / w.fader_weight)

/-- The `LEDs` memory after a fade step with weights `w`, cell by cell. -/
def fadeLEDs {K : Type} [LinearOrderedField K] [FloorRing K] (s : FastFader) (w : Weights K)
    (leds : Int → Int → Int) : Int → Int → Int :=
  fun j c =>
    if 0 ≤ j ∧ j < s.NumLEDs ∧ (c = 0 ∨ c = 1 ∨ c = 2) then
      toUInt8 (blendValue w (s.PixelBuffer j c) (s.LEDs j c))
    else leds j c

/-- The frame that a fade step with weights `w` presents. -/
def fadeFrame {K : Type} [LinearOrderedField K] [FloorRing K] (s : FastFader) (w : Weights K) :
    List (Int × Int × Int) :=
  (List.range s.NumLEDs.toNat).map (fun (i : Nat) =>
    (toUInt8 (blendValue w (s.PixelBuffer (i : Int) 0) (s.LEDs (i : Int) 0)),
      toUInt8 (blendValue w (s.PixelBuffer (i : Int) 1) (s.LEDs (i : Int) 1)),
      toUInt8 (blendValue w (s.PixelBuffer (i : Int) 2) (s.LEDs (i : Int) 2))))

/-- The trace of `n` fade steps starting at step `first`: each presents its frame and sleeps. -/
def fadeTrace (frame : Int → List (Int × Int × Int)) (step_delay : Int) : Nat → Int → List Event
  | 0, _ => []
  | n + 1, first =>
    Event.present (frame first) :: Event.delay step_delay :: fadeTrace frame step_delay n (first + 1)

/-- Every channel of every pixel of the frame held in `LEDs` is in `0 .. 255`, as the `uint8_t`
channels of a `CRGB` are. -/
def DisplayBounded (s : FastFader) : Prop :=
  ∀ i c : Int, 0 ≤ i → i < s.NumLEDs → (c = 0 ∨ c = 1 ∨ c = 2) →
    0 ≤ s.LEDs i c ∧ s.LEDs i c ≤ 255

/-- The frames presented in a trace, in order. -/
def frames : List Event → List (List (Int × Int × Int))
  | [] => []
  | Event.present f :: es => f :: frames es
  | Event.delay _ :: es => frames es

/-- The delays requested in a trace, in order. -/
def delays : List Event → List Int
  | [] => []
  | Event.present _ :: es => delays es
  | Event.delay ms :: es => ms :: delays es

/-- The target frame: the pixels `0 .. NumLEDs - 1` of `PixelBuffer`. -/
def targetFrame (s : FastFader) : List (Int × Int × Int) :=
  shownFrame s.NumLEDs s.PixelBuffer

/-- The frame on the display: the pixels `0 .. NumLEDs - 1` of `LEDs`. -/
def displayFrame (s : FastFader) : List (Int × Int × Int) :=
  shownFrame s.NumLEDs s.LEDs

/-- A fader bound to three pixels, over memory that held zeros. -/
def threePixels : FastFader :=
  bind (fun _ _ => 0) (fun _ _ => 0) 3

/-- A frame whose pixel `i` is `(100 * i, 40, 300)`. -/
def sampleFrame : Int → Int → Int :=
  fun i c => if c = 0 then 100 * i else if c = 1 then 40 else 300

/-- A three-pixel fader whose target frame is all red and whose display shows pixel `i` at
level `10 * i` on every channel. -/
def sampleFader : FastFader :=
  { NumLEDs := 3
    PixelBuffer := fun _ c => if c = 0 then 255 else 0
    LEDs := fun i _ => 10 * i }

/-- A stand-in for `log` over the rationals: zero at 1 and strictly increasing. -/
def sampleLn (x : ℚ) : ℚ := x - 1

/-- What the fade needs of `log`: it is zero at 1 and strictly increasing on the positive
integers. -/
def LogLike {K : Type} [LinearOrderedField K] (ln : K → K) : Prop :=
  ln 1 = 0 ∧ ∀ a b : Int, 1 ≤ a → a < b → ln ((a : Int) : K) < ln ((b : Int) : K)

/-- The blend as the specification words it, to be compared with `blend`:
`round((targetValue * currentWeight + startValue * previousWeight) / totalWeight)`, clamped
to `0 .. 255`. -/
def roundedBlend {K : Type} [LinearOrderedField K] [FloorRing K] (w : Weights K)
    (target start : Int) : Int :=
  min 255 (max 0
    (round ((((target : K) * w.current_weight) + ((start : K) * w.previous_weight)) /
      w.fader_weight)))

/-- A call of one of the buffer operations of the public interface. -/
inductive BufferOp where
  | clear
  | set_pixel (pos value channel : Int)
  | set_pixel_rgb (pos : Int) (value : Int → Int)
  | set_pixel_all (pos value : Int)
  | set_pixel_default (pos : Int)
  | set_frame (frame : Int → Int → Int)

/-- The effect of one buffer operation. -/
def applyOp (s : FastFader) : BufferOp → FastFader
  | BufferOp.clear => clear s
  | BufferOp.set_pixel pos value channel => set_pixel s pos value channel
  | BufferOp.set_pixel_rgb pos value => set_pixel_rgb s pos value
  | BufferOp.set_pixel_all pos value => set_pixel_all s pos value
  | BufferOp.set_pixel_default pos => set_pixel_default s pos
  | BufferOp.set_frame frame => set_frame s frame

/-- The effect of a sequence of buffer operations, first to last. -/
def runOps (s : FastFader) (ops : List BufferOp) : FastFader :=
  ops.foldl applyOp s

/-- Every channel of every pixel of the frame held in `PixelBuffer` is in `0 .. 255`. -/
def ChannelsBounded (s : FastFader) : Prop :=
  ∀ i c : Int, 0 ≤ i → i < s.NumLEDs → (c = 0 ∨ c = 1 ∨ c = 2) →
    0 ≤ s.PixelBuffer i c ∧ s.PixelBuffer i c ≤ 255

end FastFader

/-! ## Loops -/

namespace FastFader

theorem forLoop_three {σ : Type} (body : Int → σ → σ) (s : σ) :
    forLoop body 3 0 s = body 2 (body 1 (body 0 s)) := rfl

theorem forLoop_succ_last {σ : Type} (body : Int → σ → σ) (n : Nat) (i : Int) (s : σ) :
    forLoop body (n + 1) i s = body (i + n) (forLoop body n i s) := by
  induction n generalizing i s with
  | zero => simp [forLoop]
  | succ n ih =>
    rw [forLoop, ih]
    simp only [forLoop]
    congr 1
    push_cast
    ring

theorem forLoop_invariant {σ : Type} (body : Int → σ → σ) (P : σ → Prop)
    (hbody : ∀ i s, P s → P (body i s)) (n : Nat) (i : Int) (s : σ) (hs : P s) :
    P (forLoop body n i s) := by
  induction n generalizing i s with
  | zero => simpa [forLoop] using hs
  | succ n ih => exact ih (i + 1) (body i s) (hbody i s hs)

/-- A loop whose iteration `i` rewrites the three channels of cell `i` of some buffer of the
state, and nothing else of that buffer, leaves the buffer in closed form. -/
theorem forLoop_pointwise {σ : Type} (body : Int → σ → σ) (proj : σ → Int → Int → Int)
    (val : Int → Int → Int) (P : σ → Prop) (bound : Int)
    (hP : ∀ i s, P s → P (body i s))
    (hbody : ∀ i s j c, P s → 0 ≤ i → i < bound →
      proj (body i s) j c = if j = i ∧ (c = 0 ∨ c = 1 ∨ c = 2) then val i c else proj s j c)
    (n : Nat) (hn : (n : Int) ≤ bound) (s : σ) (hs : P s) (j c : Int) :
    proj (forLoop body n 0 s) j c =
      if 0 ≤ j ∧ j < n ∧ (c = 0 ∨ c = 1 ∨ c = 2) then val j c else proj s j c := by
  induction n with
  | zero =>
    have : ¬ (0 ≤ j ∧ j < ((0 : Nat) : Int) ∧ (c = 0 ∨ c = 1 ∨ c = 2)) := by
      rintro ⟨h1, h2, _⟩
      simp at h2
      omega
    simp only [forLoop, if_neg this]
  | succ n ih =>
    have hn1 : (n : Int) ≤ bound := by push_cast at hn; omega
    have hlt : (n : Int) < bound := by push_cast at hn; omega
    rw [forLoop_succ_last, zero_add,
      hbody n _ j c (forLoop_invariant body P hP n 0 s hs) (Int.ofNat_nonneg n) hlt, ih hn1]
    by_cases hc : c = 0 ∨ c = 1 ∨ c = 2
    · by_cases hj : j = n
      · subst hj
        have h2 : (0 : Int) ≤ (n : Int) ∧ (n : Int) < ((n + 1 : Nat) : Int) ∧
            (c = 0 ∨ c = 1 ∨ c = 2) := ⟨Int.ofNat_nonneg n, by push_cast; omega, hc⟩
        rw [if_pos ⟨rfl, hc⟩, if_pos h2]
      · have h1 : ¬ (j = (n : Int) ∧ (c = 0 ∨ c = 1 ∨ c = 2)) := fun h => hj h.1
        rw [if_neg h1]
        by_cases hjn : 0 ≤ j ∧ j < (n : Int)
        · rw [if_pos ⟨hjn.1, hjn.2, hc⟩, if_pos ⟨hjn.1, by push_cast; omega, hc⟩]
        · have h3 : ¬ (0 ≤ j ∧ j < (n : Int) ∧ (c = 0 ∨ c = 1 ∨ c = 2)) :=
            fun h => hjn ⟨h.1, h.2.1⟩
          have h4 : ¬ (0 ≤ j ∧ j < ((n + 1 : Nat) : Int) ∧ (c = 0 ∨ c = 1 ∨ c = 2)) := by
            rintro ⟨h5, h6, _⟩
            push_cast at h6
            exact hjn ⟨h5, by omega⟩
          rw [if_neg h3, if_neg h4]
    · have h1 : ¬ (j = (n : Int) ∧ (c = 0 ∨ c = 1 ∨ c = 2)) := fun h => hc h.2
      have h3 : ¬ (0 ≤ j ∧ j < (n : Int) ∧ (c = 0 ∨ c = 1 ∨ c = 2)) := fun h => hc h.2.2
      have h4 : ¬ (0 ≤ j ∧ j < ((n + 1 : Nat) : Int) ∧ (c = 0 ∨ c = 1 ∨ c = 2)) :=
        fun h => hc h.2.2
      rw [if_neg h1, if_neg h3, if_neg h4]

/-! ## The clipping tests of `set_pixel` -/

theorem clip_value_eq (v : Int) : clip_value v = min 255 (max 0 v) := by
  unfold clip_value
  simp only [gt_iff_lt]
  omega

theorem clip_value_bounds (v : Int) : 0 ≤ clip_value v ∧ clip_value v ≤ 255 := by
  rw [clip_value_eq]
  omega

theorem clip_value_of_bounds (v : Int) (h0 : 0 ≤ v) (h1 : v ≤ 255) : clip_value v = v := by
  rw [clip_value_eq]
  omega

theorem clip_pos_of_le (s : FastFader) (pos : Int) (h0 : 0 ≤ pos) (h1 : pos ≤ s.NumLEDs) :
    clip_pos s pos = pos := by
  unfold clip_pos
  simp only [gt_iff_lt]
  split_ifs <;> omega

/-! ## The buffer operations -/

theorem store_apply (buf : Int → Int → Int) (i c v j k : Int) :
    store buf i c v j k = if j = i ∧ k = c then v else buf j k := rfl

theorem set_pixel_NumLEDs (s : FastFader) (pos value channel : Int) :
    (set_pixel s pos value channel).NumLEDs = s.NumLEDs := by
  unfold set_pixel
  split_ifs <;> rfl

theorem set_pixel_LEDs (s : FastFader) (pos value channel : Int) :
    (set_pixel s pos value channel).LEDs = s.LEDs := by
  unfold set_pixel
  split_ifs <;> rfl

/-- The buffer after `set_pixel`, cell by cell. -/
theorem set_pixel_PixelBuffer (s : FastFader) (pos value channel j k : Int) :
    (set_pixel s pos value channel).PixelBuffer j k =
      if j = clip_pos s pos ∧
          (if channel < 0 ∨ channel > 2 then k = 0 ∨ k = 1 ∨ k = 2 else k = channel) then
        clip_value value
      else s.PixelBuffer j k := by
  unfold set_pixel
  by_cases hch : channel < 0 ∨ channel > 2
  · simp only [if_pos hch, forLoop_three, store_apply]
    by_cases hj : j = clip_pos s pos
    · by_cases h0 : k = 0
      · simp [hj, h0]
      · by_cases h1 : k = 1
        · simp [hj, h1]
        · by_cases h2 : k = 2
          · simp [hj, h2]
          · simp [hj, h0, h1, h2]
    · simp [hj]
  · simp only [if_neg hch, store_apply]

end FastFader

namespace FastFader

theorem clip_pos_congr (s t : FastFader) (h : t.NumLEDs = s.NumLEDs) (pos : Int) :
    clip_pos t pos = clip_pos s pos := by
  unfold clip_pos
  rw [h]

theorem set_pixel_rgb_NumLEDs (s : FastFader) (pos : Int) (value : Int → Int) :
    (set_pixel_rgb s pos value).NumLEDs = s.NumLEDs := by
  simp only [set_pixel_rgb, forLoop_three, set_pixel_NumLEDs]

theorem set_pixel_rgb_LEDs (s : FastFader) (pos : Int) (value : Int → Int) :
    (set_pixel_rgb s pos value).LEDs = s.LEDs := by
  simp only [set_pixel_rgb, forLoop_three, set_pixel_LEDs]

/-- The buffer after `set_pixel(pos, value[3])`, cell by cell. -/
theorem set_pixel_rgb_PixelBuffer (s : FastFader) (pos : Int) (value : Int → Int) (j k : Int) :
    (set_pixel_rgb s pos value).PixelBuffer j k =
      if j = clip_pos s pos ∧ (k = 0 ∨ k = 1 ∨ k = 2) then clip_value (value k)
      else s.PixelBuffer j k := by
  have e1 : clip_pos (set_pixel s pos (value 0) 0) pos = clip_pos s pos :=
    clip_pos_congr _ _ (set_pixel_NumLEDs _ _ _ _) _
  have e2 : clip_pos (set_pixel (set_pixel s pos (value 0) 0) pos (value 1) 1) pos =
      clip_pos s pos :=
    clip_pos_congr _ _ (by rw [set_pixel_NumLEDs, set_pixel_NumLEDs]) _
  simp only [set_pixel_rgb, forLoop_three, set_pixel_PixelBuffer, e1, e2]
  by_cases hj : j = clip_pos s pos
  · by_cases h0 : k = 0
    · subst h0; simp [hj]
    · by_cases h1 : k = 1
      · subst h1; simp [hj]
      · by_cases h2 : k = 2
        · subst h2; simp [hj]
        · simp [hj, h0, h1, h2]
  · simp [hj]

theorem set_pixel_all_eq (s : FastFader) (pos value : Int) :
    set_pixel_all s pos value = set_pixel_rgb s pos (fun _ => value) := rfl

theorem set_frame_NumLEDs (s : FastFader) (frame : Int → Int → Int) :
    (set_frame s frame).NumLEDs = s.NumLEDs :=
  forLoop_invariant _ (fun t => t.NumLEDs = s.NumLEDs)
    (fun i t ht => (set_pixel_rgb_NumLEDs t i (frame i)).trans ht) _ _ s rfl

/-- The buffer after `set_frame`, cell by cell. -/
theorem set_frame_PixelBuffer (s : FastFader) (frame : Int → Int → Int) (j c : Int) :
    (set_frame s frame).PixelBuffer j c =
      if 0 ≤ j ∧ j < s.NumLEDs ∧ (c = 0 ∨ c = 1 ∨ c = 2) then clip_value (frame j c)
      else s.PixelBuffer j c := by
  have key := forLoop_pointwise
    (fun i t => forLoop (fun channel t => set_pixel t i (frame i channel) channel) 3 0 t)
    (fun t => t.PixelBuffer) (fun i c => clip_value (frame i c))
    (fun t => t.NumLEDs = s.NumLEDs) (s.NumLEDs.toNat : Int)
    (fun i t ht => (set_pixel_rgb_NumLEDs t i (frame i)).trans ht)
    (fun i t j c ht h0 h1 => by
      have := set_pixel_rgb_PixelBuffer t i (frame i) j c
      rw [clip_pos_of_le t i h0 (by rw [ht]; omega)] at this
      exact this)
    s.NumLEDs.toNat (le_refl _) s rfl j c
  unfold set_frame
  rw [key]
  by_cases h : 0 ≤ j ∧ j < s.NumLEDs ∧ (c = 0 ∨ c = 1 ∨ c = 2)
  · rw [if_pos h, if_pos ⟨h.1, by omega, h.2.2⟩]
  · have h2 : ¬ (0 ≤ j ∧ j < (s.NumLEDs.toNat : Int) ∧ (c = 0 ∨ c = 1 ∨ c = 2)) := by
      rintro ⟨a, b, d⟩
      exact h ⟨a, by omega, d⟩
    rw [if_neg h, if_neg h2]

theorem clear_NumLEDs (s : FastFader) : (clear s).NumLEDs = s.NumLEDs :=
  forLoop_invariant _ (fun t => t.NumLEDs = s.NumLEDs)
    (fun _ t ht => by simpa only [forLoop_three] using ht) _ _ s rfl

/-- The buffer after `clear`, cell by cell. -/
theorem clear_PixelBuffer (s : FastFader) (j c : Int) :
    (clear s).PixelBuffer j c =
      if 0 ≤ j ∧ j < s.NumLEDs ∧ (c = 0 ∨ c = 1 ∨ c = 2) then 0 else s.PixelBuffer j c := by
  have key := forLoop_pointwise
    (fun i t =>
      forLoop (fun channel t => { t with PixelBuffer := store t.PixelBuffer i channel 0 }) 3 0 t)
    (fun t => t.PixelBuffer) (fun _ _ => 0) (fun _ => True) (s.NumLEDs.toNat : Int)
    (fun _ _ _ => trivial)
    (fun i t j c _ _ _ => by
      simp only [forLoop_three, store_apply]
      by_cases hj : j = i
      · by_cases h0 : c = 0
        · simp [hj, h0]
        · by_cases h1 : c = 1
          · simp [hj, h1]
          · by_cases h2 : c = 2
            · simp [hj, h2]
            · simp [hj, h0, h1, h2]
      · simp [hj])
    s.NumLEDs.toNat (le_refl _) s trivial j c
  unfold clear
  rw [key]
  by_cases h : 0 ≤ j ∧ j < s.NumLEDs ∧ (c = 0 ∨ c = 1 ∨ c = 2)
  · rw [if_pos h, if_pos ⟨h.1, by omega, h.2.2⟩]
  · have h2 : ¬ (0 ≤ j ∧ j < (s.NumLEDs.toNat : Int) ∧ (c = 0 ∨ c = 1 ∨ c = 2)) := by
      rintro ⟨a, b, d⟩
      exact h ⟨a, by omega, d⟩
    rw [if_neg h, if_neg h2]

theorem bind_NumLEDs (pixel_buffer leds : Int → Int → Int) (num_leds : Int) :
    (bind pixel_buffer leds num_leds).NumLEDs = num_leds := by
  unfold bind
  refine forLoop_invariant _ (fun t : FastFader => t.NumLEDs = num_leds) ?_ _ _ _ rfl
  intro i t ht
  exact ht

/-- The buffer after `bind`, cell by cell. -/
theorem bind_PixelBuffer (pixel_buffer leds : Int → Int → Int) (num_leds : Int) (j c : Int) :
    (bind pixel_buffer leds num_leds).PixelBuffer j c =
      if 0 ≤ j ∧ j < num_leds ∧ (c = 0 ∨ c = 1 ∨ c = 2) then 0 else pixel_buffer j c := by
  have key := forLoop_pointwise
    (fun i (t : FastFader) =>
      { t with
        LEDs := storeCRGB t.LEDs i 0 0 0
        PixelBuffer := store (store (store t.PixelBuffer i 0 0) i 1 0) i 2 0 })
    (fun t => t.PixelBuffer) (fun _ _ => 0) (fun _ => True) (num_leds.toNat : Int)
    (fun _ _ _ => trivial)
    (fun i t j c _ _ _ => by
      simp only [store_apply]
      by_cases hj : j = i
      · by_cases h0 : c = 0
        · simp [hj, h0]
        · by_cases h1 : c = 1
          · simp [hj, h1]
          · by_cases h2 : c = 2
            · simp [hj, h2]
            · simp [hj, h0, h1, h2]
      · simp [hj])
    num_leds.toNat (le_refl _) { NumLEDs := num_leds, PixelBuffer := pixel_buffer, LEDs := leds }
    trivial j c
  unfold bind
  rw [key]
  by_cases h : 0 ≤ j ∧ j < num_leds ∧ (c = 0 ∨ c = 1 ∨ c = 2)
  · rw [if_pos h, if_pos ⟨h.1, by omega, h.2.2⟩]
  · have h2 : ¬ (0 ≤ j ∧ j < (num_leds.toNat : Int) ∧ (c = 0 ∨ c = 1 ∨ c = 2)) := by
      rintro ⟨a, b, d⟩
      exact h ⟨a, by omega, d⟩
    rw [if_neg h, if_neg h2]

end FastFader

/-! ## Clamping, bounds and round trip of the buffer operations -/

namespace FastFader

theorem set_pixel_ChannelsBounded (s : FastFader) (pos value channel : Int)
    (h : ChannelsBounded s) : ChannelsBounded (set_pixel s pos value channel) := by
  intro i c h0 h1 hc
  rw [set_pixel_NumLEDs] at h1
  rw [set_pixel_PixelBuffer]
  split_ifs <;> first | exact clip_value_bounds value | exact h i c h0 h1 hc

theorem clear_ChannelsBounded (s : FastFader) : ChannelsBounded (clear s) := by
  intro i c h0 h1 hc
  rw [clear_NumLEDs] at h1
  rw [clear_PixelBuffer, if_pos ⟨h0, h1, hc⟩]
  omega

theorem set_pixel_rgb_ChannelsBounded (s : FastFader) (pos : Int) (value : Int → Int)
    (h : ChannelsBounded s) : ChannelsBounded (set_pixel_rgb s pos value) :=
  forLoop_invariant _ ChannelsBounded
    (fun c t ht => set_pixel_ChannelsBounded t pos (value c) c ht) _ _ s h

theorem set_frame_ChannelsBounded (s : FastFader) (frame : Int → Int → Int)
    (h : ChannelsBounded s) : ChannelsBounded (set_frame s frame) :=
  forLoop_invariant _ ChannelsBounded
    (fun i t ht => set_pixel_rgb_ChannelsBounded t i (frame i) ht) _ _ s h

theorem applyOp_NumLEDs (s : FastFader) (op : BufferOp) : (applyOp s op).NumLEDs = s.NumLEDs := by
  cases op with
  | clear => exact clear_NumLEDs s
  | set_pixel pos value channel => exact set_pixel_NumLEDs s pos value channel
  | set_pixel_rgb pos value => exact set_pixel_rgb_NumLEDs s pos value
  | set_pixel_all pos value => exact set_pixel_rgb_NumLEDs s pos (fun _ => value)
  | set_pixel_default pos => exact set_pixel_NumLEDs s pos 255 (-1)
  | set_frame frame => exact set_frame_NumLEDs s frame

theorem applyOp_ChannelsBounded (s : FastFader) (op : BufferOp) (h : ChannelsBounded s) :
    ChannelsBounded (applyOp s op) := by
  cases op with
  | clear => exact clear_ChannelsBounded s
  | set_pixel pos value channel => exact set_pixel_ChannelsBounded s pos value channel h
  | set_pixel_rgb pos value => exact set_pixel_rgb_ChannelsBounded s pos value h
  | set_pixel_all pos value => exact set_pixel_rgb_ChannelsBounded s pos (fun _ => value) h
  | set_pixel_default pos => exact set_pixel_ChannelsBounded s pos 255 (-1) h
  | set_frame frame => exact set_frame_ChannelsBounded s frame h

theorem runOps_NumLEDs (s : FastFader) (ops : List BufferOp) :
    (runOps s ops).NumLEDs = s.NumLEDs := by
  induction ops generalizing s with
  | nil => rfl
  | cons op ops ih =>
    show (runOps (applyOp s op) ops).NumLEDs = s.NumLEDs
    rw [ih, applyOp_NumLEDs]

theorem runOps_ChannelsBounded (s : FastFader) (ops : List BufferOp) (h : ChannelsBounded s) :
    ChannelsBounded (runOps s ops) := by
  induction ops generalizing s with
  | nil => exact h
  | cons op ops ih => exact ih (applyOp s op) (applyOp_ChannelsBounded s op h)

theorem bind_ChannelsBounded (pixel_buffer leds : Int → Int → Int) (num_leds : Int) :
    ChannelsBounded (bind pixel_buffer leds num_leds) := by
  intro i c h0 h1 hc
  rw [bind_NumLEDs] at h1
  rw [bind_PixelBuffer, if_pos ⟨h0, h1, hc⟩]
  omega

theorem threePixels_NumLEDs : threePixels.NumLEDs = 3 :=
  bind_NumLEDs _ _ 3

/-- C1: for an in-range position `pos` (so the buffer has at least one pixel) and a channel `c`
among 0, 1, 2, `set_pixel(pos, v, c)` leaves `min 255 (max 0 v)` in `PixelBuffer[pos][c]`; a value of
300 is stored as 255 and a value of -5 as 0. -/
theorem set_pixel_stores_clamped_value (s : FastFader) (pos v c : Int)
    (h0 : 0 ≤ pos) (h1 : pos < s.NumLEDs) (hc : c = 0 ∨ c = 1 ∨ c = 2) :
    get_pixel (set_pixel s pos v c) pos c = min 255 (max 0 v) ∧
      (v = 300 → get_pixel (set_pixel s pos v c) pos c = 255) ∧
      (v = -5 → get_pixel (set_pixel s pos v c) pos c = 0) := by
  have hch : ¬ (c < 0 ∨ c > 2) := by omega
  have key : get_pixel (set_pixel s pos v c) pos c = min 255 (max 0 v) := by
    unfold get_pixel
    rw [set_pixel_PixelBuffer, clip_pos_of_le s pos h0 (by omega), clip_value_eq]
    simp only [hch, if_false, and_self, if_true]
  refine ⟨key, ?_, ?_⟩
  · intro hv
    rw [key, hv]
    decide
  · intro hv
    rw [key, hv]
    decide

theorem set_pixel_stores_clamped_value_witness :
    get_pixel (set_pixel threePixels 1 300 0) 1 0 = 255 ∧
      get_pixel (set_pixel threePixels 2 (-5) 1) 2 1 = 0 :=
  ⟨(set_pixel_stores_clamped_value threePixels 1 300 0 (by decide) (by decide)
      (by decide)).2.1 rfl,
    (set_pixel_stores_clamped_value threePixels 2 (-5) 1 (by decide) (by decide)
      (by decide)).2.2 rfl⟩

/-- C2: on a fader bound to three pixels, `set_pixel` with position 3 or position 7 indexes
`PixelBuffer` at 3, one past the last pixel, and the value lands there. -/
theorem set_pixel_writes_one_past_the_end :
    threePixels.NumLEDs = 3 ∧ clip_pos threePixels 3 = 3 ∧ clip_pos threePixels 7 = 3 ∧
      threePixels.PixelBuffer 3 0 = 0 ∧ (set_pixel threePixels 7 9 0).PixelBuffer 3 0 = 9 := by
  decide

/-- C3: after `set_frame(F)`, reading pixel `i` channel `c` of the frame gives
`min 255 (max 0 (F i c))`; when every channel of `F` is already in `0 .. 255`, the frame read
back is `F`. -/
theorem set_frame_round_trip (s : FastFader) (F : Int → Int → Int) :
    (∀ i c : Int, 0 ≤ i → i < s.NumLEDs → (c = 0 ∨ c = 1 ∨ c = 2) →
        get_pixel (set_frame s F) i c = min 255 (max 0 (F i c))) ∧
      ((∀ i c : Int, 0 ≤ i → i < s.NumLEDs → (c = 0 ∨ c = 1 ∨ c = 2) →
          0 ≤ F i c ∧ F i c ≤ 255) →
        ∀ i c : Int, 0 ≤ i → i < s.NumLEDs → (c = 0 ∨ c = 1 ∨ c = 2) →
          get_pixel (set_frame s F) i c = F i c) := by
  have key : ∀ i c : Int, 0 ≤ i → i < s.NumLEDs → (c = 0 ∨ c = 1 ∨ c = 2) →
      get_pixel (set_frame s F) i c = min 255 (max 0 (F i c)) := by
    intro i c h0 h1 hc
    unfold get_pixel
    rw [set_frame_PixelBuffer, if_pos ⟨h0, h1, hc⟩, clip_value_eq]
  refine ⟨key, ?_⟩
  intro hF i c h0 h1 hc
  rw [key i c h0 h1 hc]
  have := hF i c h0 h1 hc
  omega

theorem set_frame_round_trip_witness :
    get_pixel (set_frame threePixels sampleFrame) 2 0 = min 255 (max 0 (sampleFrame 2 0)) ∧
      get_pixel (set_frame threePixels sampleFrame) 2 2 = 255 ∧
      get_pixel (set_frame threePixels (fun _ _ => 40)) 1 1 = 40 := by
  have h := (set_frame_round_trip threePixels sampleFrame).1
  have h2 := (set_frame_round_trip threePixels (fun _ _ => 40)).2
    (fun _ _ _ _ _ => by decide)
  exact ⟨h 2 0 (by decide) (by decide) (by decide), h 2 2 (by decide) (by decide) (by decide),
    h2 1 1 (by decide) (by decide) (by decide)⟩

/-- C4: starting from `bind`, after any sequence of `clear`, the four `set_pixel` overloads and
`set_frame`, with any integer arguments, the pixel count is the bound one and every channel of
every pixel at indices `0 .. NumLEDs - 1` of `PixelBuffer` is in `0 .. 255`. -/
theorem buffer_channels_stay_in_range (pixel_buffer leds : Int → Int → Int) (num_leds : Int)
    (ops : List BufferOp) :
    (runOps (bind pixel_buffer leds num_leds) ops).NumLEDs = num_leds ∧
      ∀ i c : Int, 0 ≤ i → i < num_leds → (c = 0 ∨ c = 1 ∨ c = 2) →
        0 ≤ (runOps (bind pixel_buffer leds num_leds) ops).PixelBuffer i c ∧
          (runOps (bind pixel_buffer leds num_leds) ops).PixelBuffer i c ≤ 255 := by
  have hN : (runOps (bind pixel_buffer leds num_leds) ops).NumLEDs = num_leds := by
    rw [runOps_NumLEDs, bind_NumLEDs]
  refine ⟨hN, ?_⟩
  intro i c h0 h1 hc
  exact runOps_ChannelsBounded _ ops (bind_ChannelsBounded pixel_buffer leds num_leds) i c h0
    (by rw [hN]; exact h1) hc

theorem buffer_channels_stay_in_range_witness :
    0 ≤ (runOps (bind (fun _ _ => 999) (fun _ _ => 0) 3)
        [BufferOp.set_pixel 7 300 (-1), BufferOp.set_frame sampleFrame,
          BufferOp.set_pixel_all (-4) (-5), BufferOp.set_pixel_default 2]).PixelBuffer 2 1 ∧
      (runOps (bind (fun _ _ => 999) (fun _ _ => 0) 3)
        [BufferOp.set_pixel 7 300 (-1), BufferOp.set_frame sampleFrame,
          BufferOp.set_pixel_all (-4) (-5), BufferOp.set_pixel_default 2]).PixelBuffer 2 1 ≤ 255 :=
  (buffer_channels_stay_in_range (fun _ _ => 999) (fun _ _ => 0) 3
    [BufferOp.set_pixel 7 300 (-1), BufferOp.set_frame sampleFrame,
      BufferOp.set_pixel_all (-4) (-5), BufferOp.set_pixel_default 2]).2 2 1
    (by decide) (by decide) (by decide)

end FastFader

/-! ## The fade loop of `push` -/

namespace FastFader

/-- A loop whose body cannot fault on the states it meets is the pure loop. -/
theorem forLoopM_eq_forLoop {σ : Type} (body : Int → σ → Except Fault σ) (f : Int → σ → σ)
    (P : σ → Prop) (n : Nat) (i0 : Int)
    (hP : ∀ i s, i0 ≤ i → i < i0 + n → P s → P (f i s))
    (hbody : ∀ i s, i0 ≤ i → i < i0 + n → P s → body i s = Except.ok (f i s))
    (s : σ) (hs : P s) :
    forLoopM body n i0 s = Except.ok (forLoop f n i0 s) := by
  induction n generalizing i0 s with
  | zero => rfl
  | succ n ih =>
    have hi : i0 < i0 + ((n + 1 : Nat) : Int) := by push_cast; omega
    rw [forLoopM, hbody i0 s (le_refl _) hi hs, forLoop]
    exact ih (i0 + 1)
      (fun i t h1 h2 ht => hP i t (by omega) (by push_cast; omega) ht)
      (fun i t h1 h2 ht => hbody i t (by omega) (by push_cast; omega) ht)
      (f i0 s) (hP i0 s (le_refl _) hi hs)

theorem storeCRGB_apply (leds : Int → Int → Int) (i r g b j c : Int) :
    storeCRGB leds i r g b j c =
      if j = i ∧ (c = 0 ∨ c = 1 ∨ c = 2) then
        toUInt8 (if c = 0 then r else if c = 1 then g else b)
      else leds j c := by
  simp only [storeCRGB, store_apply]
  by_cases hj : j = i
  · by_cases h0 : c = 0
    · simp [hj, h0]
    · by_cases h1 : c = 1
      · simp [hj, h1]
      · by_cases h2 : c = 2
        · simp [hj, h2]
        · simp [hj, h0, h1, h2]
  · simp [hj]

/-- The copy taken by `push` holds the displayed frame. -/
theorem snapshot_apply (s : FastFader) (j c : Int) (h0 : 0 ≤ j) (h1 : j < s.NumLEDs)
    (hc : c = 0 ∨ c = 1 ∨ c = 2) : snapshot s j c = s.LEDs j c := by
  have key := forLoop_pointwise
    (fun i cache =>
      forLoop (fun channel cache => store cache i channel (s.LEDs i channel)) 3 0 cache)
    (fun cache => cache) (fun i c => s.LEDs i c) (fun _ => True) (s.NumLEDs.toNat : Int)
    (fun _ _ _ => trivial)
    (fun i t j c _ _ _ => by
      simp only [forLoop_three, store_apply]
      by_cases hj : j = i
      · by_cases h0 : c = 0
        · simp [hj, h0]
        · by_cases h1 : c = 1
          · simp [hj, h1]
          · by_cases h2 : c = 2
            · simp [hj, h2]
            · simp [hj, h0, h1, h2]
      · simp [hj])
    s.NumLEDs.toNat (le_refl _) (fun _ _ => 0) trivial j c
  unfold snapshot
  rw [key, if_pos ⟨h0, by omega, hc⟩]

theorem resolveDecay_cases (d : Int) :
    resolveDecay d = NO_DECAY ∨ resolveDecay d = LINEAR_DECAY ∨
      resolveDecay d = LOGARITHMIC_DECAY := by
  unfold resolveDecay NO_DECAY LINEAR_DECAY LOGARITHMIC_DECAY
  split_ifs <;> omega

theorem resolveDecay_idem (d : Int) : resolveDecay (resolveDecay d) = resolveDecay d := by
  unfold resolveDecay LOGARITHMIC_DECAY
  split_ifs <;> omega

theorem resolveDecay_of_recognised (d : Int)
    (h : d = NO_DECAY ∨ d = LINEAR_DECAY ∨ d = LOGARITHMIC_DECAY) : resolveDecay d = d := by
  unfold resolveDecay
  unfold NO_DECAY LINEAR_DECAY LOGARITHMIC_DECAY at h
  split_ifs <;> omega

/-- A product by 100 that fits an `int` is left as it is. -/
theorem wrapInt_hundred (x : Int) (h0 : 0 ≤ x) (h1 : x ≤ 21474836) :
    wrapInt (100 * x) = 100 * x := by
  unfold wrapInt
  omega

/-- The `int` division is carried out when the divisor is not zero and the quotient is not
`INT_MIN / -1`. -/
theorem idiv_of_ne (a b : Int) (hb : b ≠ 0) (hq : ¬ (a = INT_MIN ∧ b = -1)) :
    idiv a b = Except.ok (Int.tdiv a b) := by
  unfold idiv
  rw [if_neg hb, if_neg hq]

theorem toInt_intCast {K : Type} [LinearOrderedField K] [FloorRing K]
    (n : Int) : toInt ((n : Int) : K) = n := by
  unfold toInt
  split_ifs
  · exact Int.floor_intCast n
  · exact Int.ceil_intCast n

theorem fdiv_of_ne {K : Type} [LinearOrderedField K]
    (a b : K) (hb : b ≠ 0) : fdiv a b = Except.ok (a / b) := by
  unfold fdiv
  rw [if_neg hb]

/-- With a recognised curve and a non-zero `log_base`, the weights are computed without fault. -/
theorem stepWeights_eq {K : Type} [LinearOrderedField K]
    (ln : K → K) (fader_steps current_step d : Int)
    (hd : d = NO_DECAY ∨ d = LINEAR_DECAY ∨ d = LOGARITHMIC_DECAY)
    (hlog : d = LOGARITHMIC_DECAY → ln ((fader_steps : Int) : K) ≠ 0) :
    stepWeights ln (ln ((fader_steps : Int) : K)) fader_steps current_step d =
      Except.ok (some (weightsAt ln fader_steps current_step d)) := by
  unfold stepWeights weightsAt
  rcases hd with h | h | h
  · subst h
    simp [NO_DECAY, LINEAR_DECAY, LOGARITHMIC_DECAY]
  · subst h
    simp [NO_DECAY, LINEAR_DECAY, LOGARITHMIC_DECAY]
  · have hne := hlog h
    subst h
    simp [NO_DECAY, LINEAR_DECAY, LOGARITHMIC_DECAY, fdiv_of_ne _ _ hne]

theorem blend_eq {K : Type} [LinearOrderedField K] [FloorRing K]
    (w : Weights K) (target start : Int) (hw : w.fader_weight ≠ 0) :
    blend (some w) target start = Except.ok (blendValue w target start) := by
  unfold blend blendValue
  simp only [fdiv_of_ne _ _ hw]

/-- With a non-zero `fader_weight`, the pixel loop of a fade step runs without fault and
rewrites exactly the frame `0 .. NumLEDs - 1`. -/
theorem sendStep_eq {K : Type} [LinearOrderedField K] [FloorRing K]
    (s : FastFader) (w : Weights K) (leds : Int → Int → Int)
    (hw : w.fader_weight ≠ 0) :
    sendStep s (snapshot s) (some w) leds = Except.ok (fadeLEDs s w leds) := by
  unfold sendStep
  rw [forLoopM_eq_forLoop _
    (fun i leds => storeCRGB leds i (blendValue w (s.PixelBuffer i 0) (snapshot s i 0))
      (blendValue w (s.PixelBuffer i 1) (snapshot s i 1))
      (blendValue w (s.PixelBuffer i 2) (snapshot s i 2)))
    (fun _ => True) _ _ (fun _ _ _ _ _ => trivial)
    (fun i t _ _ _ => by simp only [blend_eq _ _ _ hw]) leds trivial]
  congr 1
  funext j c
  have key := forLoop_pointwise
    (fun i leds => storeCRGB leds i (blendValue w (s.PixelBuffer i 0) (snapshot s i 0))
      (blendValue w (s.PixelBuffer i 1) (snapshot s i 1))
      (blendValue w (s.PixelBuffer i 2) (snapshot s i 2)))
    (fun leds => leds)
    (fun i c => toUInt8 (blendValue w (s.PixelBuffer i c) (s.LEDs i c)))
    (fun _ => True) (s.NumLEDs.toNat : Int) (fun _ _ _ => trivial)
    (fun i t j c _ h0 h1 => by
      have hi : i < s.NumLEDs := by omega
      beta_reduce
      rw [storeCRGB_apply, snapshot_apply s i 0 h0 hi (Or.inl rfl),
        snapshot_apply s i 1 h0 hi (Or.inr (Or.inl rfl)),
        snapshot_apply s i 2 h0 hi (Or.inr (Or.inr rfl))]
      by_cases hj : j = i
      · subst hj
        rcases (em (c = 0 ∨ c = 1 ∨ c = 2)) with hc | hc
        · rcases hc with h | h | h <;> subst h <;> simp
        · simp [hc]
      · simp [hj])
    s.NumLEDs.toNat (le_refl _) leds trivial j c
  rw [key]
  unfold fadeLEDs
  by_cases h : 0 ≤ j ∧ j < s.NumLEDs ∧ (c = 0 ∨ c = 1 ∨ c = 2)
  · rw [if_pos h, if_pos ⟨h.1, by omega, h.2.2⟩]
  · have h2 : ¬ (0 ≤ j ∧ j < (s.NumLEDs.toNat : Int) ∧ (c = 0 ∨ c = 1 ∨ c = 2)) := by
      rintro ⟨a, b, d⟩
      exact h ⟨a, by omega, d⟩
    rw [if_neg h, if_neg h2]

theorem fadeLEDs_apply {K : Type} [LinearOrderedField K] [FloorRing K]
    (s : FastFader) (w : Weights K) (leds : Int → Int → Int) (j c : Int)
    (h0 : 0 ≤ j) (h1 : j < s.NumLEDs) (hc : c = 0 ∨ c = 1 ∨ c = 2) :
    fadeLEDs s w leds j c = toUInt8 (blendValue w (s.PixelBuffer j c) (s.LEDs j c)) := by
  unfold fadeLEDs
  rw [if_pos ⟨h0, h1, hc⟩]

theorem shownFrame_fadeLEDs {K : Type} [LinearOrderedField K] [FloorRing K]
    (s : FastFader) (w : Weights K) (leds : Int → Int → Int) :
    shownFrame s.NumLEDs (fadeLEDs s w leds) = fadeFrame s w := by
  unfold shownFrame fadeFrame
  apply List.map_congr_left
  intro i hi
  have hi2 : i < s.NumLEDs.toNat := List.mem_range.mp hi
  have h0 : (0 : Int) ≤ (i : Int) := Int.ofNat_nonneg i
  have h1 : (i : Int) < s.NumLEDs := by omega
  rw [fadeLEDs_apply s w leds i 0 h0 h1 (Or.inl rfl),
    fadeLEDs_apply s w leds i 1 h0 h1 (Or.inr (Or.inl rfl)),
    fadeLEDs_apply s w leds i 2 h0 h1 (Or.inr (Or.inr rfl))]

theorem fadeLEDs_fadeLEDs {K : Type} [LinearOrderedField K] [FloorRing K]
    (s : FastFader) (w w2 : Weights K) (leds : Int → Int → Int) :
    fadeLEDs s w (fadeLEDs s w2 leds) = fadeLEDs s w leds := by
  funext j c
  unfold fadeLEDs
  split_ifs <;> rfl

end FastFader

namespace FastFader

theorem frames_append (a b : List Event) : frames (a ++ b) = frames a ++ frames b := by
  induction a with
  | nil => rfl
  | cons e a ih =>
    cases e with
    | present f => simp [frames, ih]
    | delay ms => simp [frames, ih]

theorem fadeTrace_succ_last (frame : Int → List (Int × Int × Int)) (step_delay : Int) (n : Nat)
    (first : Int) :
    fadeTrace frame step_delay (n + 1) first =
      fadeTrace frame step_delay n first ++
        [Event.present (frame (first + n)), Event.delay step_delay] := by
  induction n generalizing first with
  | zero => simp [fadeTrace]
  | succ n ih =>
    rw [fadeTrace, ih (first + 1)]
    simp only [fadeTrace, List.cons_append]
    have e : first + 1 + (n : Int) = first + ((n + 1 : Nat) : Int) := by
      push_cast
      omega
    rw [e]

theorem frames_fadeTrace_length (frame : Int → List (Int × Int × Int)) (step_delay : Int)
    (n : Nat) (first : Int) : (frames (fadeTrace frame step_delay n first)).length = n := by
  induction n generalizing first with
  | zero => rfl
  | succ n ih => simp [fadeTrace, frames, ih]

theorem frames_fadeTrace_const (frame : Int → List (Int × Int × Int)) (step_delay : Int)
    (x : List (Int × Int × Int)) (hx : ∀ i, frame i = x) (n : Nat) (first : Int) :
    frames (fadeTrace frame step_delay n first) = List.replicate n x := by
  induction n generalizing first with
  | zero => rfl
  | succ n ih => simp [fadeTrace, frames, ih, hx, List.replicate_succ]

theorem frames_fadeTrace_getLast (frame : Int → List (Int × Int × Int)) (step_delay : Int)
    (n : Nat) (first : Int) :
    (frames (fadeTrace frame step_delay (n + 1) first)).getLast? = some (frame (first + n)) := by
  rw [fadeTrace_succ_last, frames_append]
  simp [frames]

theorem frames_fadeTrace_head (frame : Int → List (Int × Int × Int)) (step_delay : Int)
    (n : Nat) (first : Int) :
    (frames (fadeTrace frame step_delay (n + 1) first)).head? = some (frame first) := by
  simp [fadeTrace, frames]

theorem delays_fadeTrace (frame : Int → List (Int × Int × Int)) (step_delay : Int)
    (n : Nat) (first : Int) :
    delays (fadeTrace frame step_delay n first) = List.replicate n step_delay := by
  induction n generalizing first with
  | zero => rfl
  | succ n ih => simp [fadeTrace, delays, ih, List.replicate_succ]

/-- One fade step, once its divisions cannot fault. -/
theorem fadeStep_eq {K : Type} [LinearOrderedField K] [FloorRing K]
    (ln : K → K) (s : FastFader) (step_delay fader_steps current_step : Int)
    (st : FadeState)
    (hlog : resolveDecay st.decay_type = LOGARITHMIC_DECAY → ln ((fader_steps : Int) : K) ≠ 0)
    (hfw : (weightsAt ln fader_steps current_step (resolveDecay st.decay_type)).fader_weight ≠ 0) :
    fadeStep ln s (snapshot s) step_delay fader_steps (ln ((fader_steps : Int) : K))
        current_step st =
      Except.ok
        { decay_type := resolveDecay st.decay_type
          LEDs :=
            fadeLEDs s (weightsAt ln fader_steps current_step (resolveDecay st.decay_type)) st.LEDs
          trace := st.trace ++
            [Event.present
                (fadeFrame s (weightsAt ln fader_steps current_step (resolveDecay st.decay_type))),
              Event.delay step_delay] } := by
  unfold fadeStep
  simp only [stepWeights_eq ln fader_steps current_step _ (resolveDecay_cases st.decay_type) hlog,
    sendStep_eq s _ st.LEDs hfw, shownFrame_fadeLEDs]

/-- The pure form of the fade loop. -/
theorem fadeLoop_trace {K : Type} [LinearOrderedField K] [FloorRing K]
    (s : FastFader) (w : Int → Weights K) (d step_delay : Int) (n : Nat)
    (first : Int) (st : FadeState) :
    (forLoop
        (fun i (st : FadeState) =>
          ({ decay_type := d
             LEDs := fadeLEDs s (w i) st.LEDs
             trace := st.trace ++ [Event.present (fadeFrame s (w i)), Event.delay step_delay] } :
            FadeState))
        n first st).trace =
      st.trace ++ fadeTrace (fun i => fadeFrame s (w i)) step_delay n first := by
  induction n generalizing first st with
  | zero => simp [forLoop, fadeTrace]
  | succ n ih =>
    rw [forLoop, ih]
    simp [fadeTrace]

theorem fadeLoop_LEDs_absorb {K : Type} [LinearOrderedField K] [FloorRing K]
    (s : FastFader) (w : Int → Weights K) (d step_delay : Int) (n : Nat)
    (first : Int) (st : FadeState) (w2 : Weights K) :
    fadeLEDs s w2
        (forLoop
          (fun i (st : FadeState) =>
            ({ decay_type := d
               LEDs := fadeLEDs s (w i) st.LEDs
               trace := st.trace ++ [Event.present (fadeFrame s (w i)), Event.delay step_delay] } :
              FadeState))
          n first st).LEDs =
      fadeLEDs s w2 st.LEDs := by
  induction n generalizing first st with
  | zero => rfl
  | succ n ih =>
    rw [forLoop, ih]
    exact fadeLEDs_fadeLEDs s w2 (w first) st.LEDs

theorem fadeLoop_LEDs {K : Type} [LinearOrderedField K] [FloorRing K]
    (s : FastFader) (w : Int → Weights K) (d step_delay : Int) (n : Nat)
    (first : Int) (st : FadeState) :
    (forLoop
        (fun i (st : FadeState) =>
          ({ decay_type := d
             LEDs := fadeLEDs s (w i) st.LEDs
             trace := st.trace ++ [Event.present (fadeFrame s (w i)), Event.delay step_delay] } :
            FadeState))
        (n + 1) first st).LEDs =
      fadeLEDs s (w (first + n)) st.LEDs := by
  rw [forLoop_succ_last]
  exact fadeLoop_LEDs_absorb s w d step_delay n first st (w (first + n))

/-- What `push` does when none of its divisions has a zero divisor: with a positive step count
it presents one blended frame per step, each followed by the same delay, and leaves the last
blended frame on the display. -/
theorem push_eq {K : Type} [LinearOrderedField K] [FloorRing K]
    (ln : K → K) (s : FastFader) (fader_delay fader_steps decay_type : Int)
    (hsteps : 0 < fader_steps)
    (hlog : resolveDecay decay_type = LOGARITHMIC_DECAY → ln ((fader_steps : Int) : K) ≠ 0)
    (hfw : ∀ i : Int, 1 ≤ i → i ≤ fader_steps →
      (weightsAt ln fader_steps i (resolveDecay decay_type)).fader_weight ≠ 0) :
    push ln s fader_delay fader_steps decay_type =
      Except.ok
        ({ s with
            LEDs := fadeLEDs s (weightsAt ln fader_steps fader_steps (resolveDecay decay_type))
              s.LEDs },
          fadeTrace (fun i => fadeFrame s (weightsAt ln fader_steps i (resolveDecay decay_type)))
            (Int.tdiv fader_delay fader_steps) fader_steps.toNat 1) := by
  have hne : fader_steps ≠ 0 := by omega
  obtain ⟨m, hm⟩ : ∃ m : Nat, fader_steps.toNat = m + 1 := ⟨fader_steps.toNat - 1, by omega⟩
  have hloop := forLoopM_eq_forLoop
    (fadeStep ln s (snapshot s) (Int.tdiv fader_delay fader_steps) fader_steps
      (ln ((fader_steps : Int) : K)))
    (fun i (st : FadeState) =>
      ({ decay_type := resolveDecay decay_type
         LEDs := fadeLEDs s (weightsAt ln fader_steps i (resolveDecay decay_type)) st.LEDs
         trace := st.trace ++
          [Event.present (fadeFrame s (weightsAt ln fader_steps i (resolveDecay decay_type))),
            Event.delay (Int.tdiv fader_delay fader_steps)] } : FadeState))
    (fun st => resolveDecay st.decay_type = resolveDecay decay_type)
    fader_steps.toNat 1
    (fun i st _ _ _ => resolveDecay_idem decay_type)
    (fun i st h1 h2 hst => by
      have h := fadeStep_eq ln s (Int.tdiv fader_delay fader_steps) fader_steps i st
        (by rw [hst]; exact hlog) (by rw [hst]; exact hfw i h1 (by omega))
      rw [h, hst])
    { decay_type := decay_type, LEDs := s.LEDs, trace := [] } rfl
  have hq : ¬ (fader_delay = INT_MIN ∧ fader_steps = -1) := by
    rintro ⟨_, h⟩
    omega
  unfold push
  simp only [idiv_of_ne _ _ hne hq, hloop]
  congr 2
  · rw [hm, fadeLoop_LEDs]
    have : (1 : Int) + (m : Int) = fader_steps := by omega
    rw [this]
  · rw [fadeLoop_trace]
    rfl

/-- With a negative step count, and a quotient `fader_delay / fader_steps` that is an `int`,
`push` evaluates that quotient, runs no fade step and leaves everything as it was. -/
theorem push_of_neg {K : Type} [LinearOrderedField K] [FloorRing K]
    (ln : K → K) (s : FastFader) (fader_delay fader_steps decay_type : Int)
    (hsteps : fader_steps < 0) (hq : ¬ (fader_delay = INT_MIN ∧ fader_steps = -1)) :
    push ln s fader_delay fader_steps decay_type = Except.ok (s, []) := by
  have hne : fader_steps ≠ 0 := by omega
  have hn : fader_steps.toNat = 0 := by omega
  unfold push
  simp only [idiv_of_ne _ _ hne hq, hn, forLoopM]

/-- The quotient `INT_MIN / -1` is not an `int`: `push` stops at the division. -/
theorem push_of_overflow {K : Type} [LinearOrderedField K] [FloorRing K]
    (ln : K → K) (s : FastFader) (decay_type : Int) :
    push ln s INT_MIN (-1) decay_type = Except.error Fault.divByZero := by
  have h : idiv INT_MIN (-1) = Except.error Fault.divByZero := rfl
  unfold push
  simp only [h]

/-- With a step count of zero `push` divides by zero before anything else. -/
theorem push_of_zero {K : Type} [LinearOrderedField K] [FloorRing K]
    (ln : K → K) (s : FastFader) (fader_delay decay_type : Int) :
    push ln s fader_delay 0 decay_type = Except.error Fault.divByZero := by
  have h : idiv fader_delay 0 = Except.error Fault.divByZero := by
    unfold idiv
    rw [if_pos rfl]
  unfold push
  simp only [h]

end FastFader

/-! ## The frames at the two ends of a fade -/

namespace FastFader

theorem toUInt8_of_bounds (x : Int) (h0 : 0 ≤ x) (h1 : x ≤ 255) : toUInt8 x = x := by
  unfold toUInt8
  omega

theorem sampleFader_ChannelsBounded : ChannelsBounded sampleFader := by
  intro i c _ _ _
  show 0 ≤ (if c = 0 then (255 : Int) else 0) ∧ (if c = 0 then (255 : Int) else 0) ≤ 255
  split_ifs <;> omega

theorem sampleFader_DisplayBounded : DisplayBounded sampleFader := by
  intro i c h0 h1 _
  have h3 : i < 3 := h1
  show 0 ≤ 10 * i ∧ 10 * i ≤ 255
  omega

theorem sampleLn_one : sampleLn 1 = 0 := by
  unfold sampleLn
  norm_num

theorem sampleLn_strictMono (a b : Int) (_ : 1 ≤ a) (hab : a < b) :
    sampleLn ((a : Int) : ℚ) < sampleLn ((b : Int) : ℚ) := by
  unfold sampleLn
  have : ((a : Int) : ℚ) < ((b : Int) : ℚ) := by exact_mod_cast hab
  linarith

theorem blendValue_target {K : Type} [LinearOrderedField K] [FloorRing K]
    (w : Weights K) (target start : Int) (hp : w.previous_weight = 0)
    (hc : w.current_weight = w.fader_weight) (hf : w.fader_weight ≠ 0) :
    blendValue w target start = target := by
  unfold blendValue
  rw [hp, hc, mul_zero, add_zero, mul_div_cancel_right₀ _ hf, toInt_intCast]

theorem blendValue_start {K : Type} [LinearOrderedField K] [FloorRing K]
    (w : Weights K) (target start : Int) (hc : w.current_weight = 0)
    (hp : w.previous_weight = w.fader_weight) (hf : w.fader_weight ≠ 0) :
    blendValue w target start = start := by
  unfold blendValue
  rw [hp, hc, mul_zero, zero_add, mul_div_cancel_right₀ _ hf, toInt_intCast]

theorem fadeFrame_eq_target {K : Type} [LinearOrderedField K] [FloorRing K]
    (s : FastFader) (w : Weights K)
    (hw : ∀ target start : Int, blendValue w target start = target) (hs : ChannelsBounded s) :
    fadeFrame s w = targetFrame s := by
  unfold fadeFrame targetFrame shownFrame
  apply List.map_congr_left
  intro i hi
  have hi2 : i < s.NumLEDs.toNat := List.mem_range.mp hi
  have h0 : (0 : Int) ≤ (i : Int) := Int.ofNat_nonneg i
  have h1 : (i : Int) < s.NumLEDs := by omega
  have b0 := hs i 0 h0 h1 (Or.inl rfl)
  have b1 := hs i 1 h0 h1 (Or.inr (Or.inl rfl))
  have b2 := hs i 2 h0 h1 (Or.inr (Or.inr rfl))
  rw [hw, hw, hw, toUInt8_of_bounds _ b0.1 b0.2, toUInt8_of_bounds _ b1.1 b1.2,
    toUInt8_of_bounds _ b2.1 b2.2]

theorem fadeFrame_eq_display {K : Type} [LinearOrderedField K] [FloorRing K]
    (s : FastFader) (w : Weights K)
    (hw : ∀ target start : Int, blendValue w target start = start) (hs : DisplayBounded s) :
    fadeFrame s w = displayFrame s := by
  unfold fadeFrame displayFrame shownFrame
  apply List.map_congr_left
  intro i hi
  have hi2 : i < s.NumLEDs.toNat := List.mem_range.mp hi
  have h0 : (0 : Int) ≤ (i : Int) := Int.ofNat_nonneg i
  have h1 : (i : Int) < s.NumLEDs := by omega
  have b0 := hs i 0 h0 h1 (Or.inl rfl)
  have b1 := hs i 1 h0 h1 (Or.inr (Or.inl rfl))
  have b2 := hs i 2 h0 h1 (Or.inr (Or.inr rfl))
  rw [hw, hw, hw, toUInt8_of_bounds _ b0.1 b0.2, toUInt8_of_bounds _ b1.1 b1.2,
    toUInt8_of_bounds _ b2.1 b2.2]

theorem weightsAt_noDecay {K : Type} [LinearOrderedField K]
    (ln : K → K) (fader_steps i : Int) :
    weightsAt ln fader_steps i NO_DECAY =
      { previous_weight := 0, current_weight := 1, fader_weight := 1 } := by
  unfold weightsAt
  rw [if_pos rfl]

theorem weightsAt_linear_wrapped {K : Type} [LinearOrderedField K]
    (ln : K → K) (fader_steps i : Int) :
    weightsAt ln fader_steps i LINEAR_DECAY =
      { previous_weight := ((wrapInt (100 * (fader_steps - i)) : Int) : K)
        current_weight := ((wrapInt (100 * (i - 1)) : Int) : K)
        fader_weight := ((wrapInt (100 * (fader_steps - 1)) : Int) : K) } := by
  unfold weightsAt
  rw [if_neg (by decide), if_pos rfl]

/-- While `100 * (fader_steps - 1)` fits an `int`, the linear weights of the steps
`1 .. fader_steps` are the products themselves. -/
theorem weightsAt_linear {K : Type} [LinearOrderedField K]
    (ln : K → K) (fader_steps i : Int) (h1 : 1 ≤ i) (h2 : i ≤ fader_steps)
    (hb : fader_steps ≤ 21474837) :
    weightsAt ln fader_steps i LINEAR_DECAY =
      { previous_weight := ((100 * (fader_steps - i) : Int) : K)
        current_weight := ((100 * (i - 1) : Int) : K)
        fader_weight := ((100 * (fader_steps - 1) : Int) : K) } := by
  rw [weightsAt_linear_wrapped, wrapInt_hundred _ (by omega) (by omega),
    wrapInt_hundred _ (by omega) (by omega), wrapInt_hundred _ (by omega) (by omega)]

theorem weightsAt_logarithmic {K : Type} [LinearOrderedField K]
    (ln : K → K) (fader_steps i : Int) :
    weightsAt ln fader_steps i LOGARITHMIC_DECAY =
      { previous_weight := 100 - (100 * (ln ((i : Int) : K) / ln ((fader_steps : Int) : K)))
        current_weight :=
          100 - (100 * (ln ((fader_steps - i + 1 : Int) : K) / ln ((fader_steps : Int) : K)))
        fader_weight :=
          (100 - (100 * (ln ((fader_steps - i + 1 : Int) : K) / ln ((fader_steps : Int) : K))))
            + (100 - (100 * (ln ((i : Int) : K) / ln ((fader_steps : Int) : K)))) } := by
  unfold weightsAt
  rw [if_neg (by decide), if_neg (by decide)]

theorem linear_fader_weight_ne_zero {K : Type} [LinearOrderedField K]
    (ln : K → K) (fader_steps i : Int) (h : 2 ≤ fader_steps) (hb : fader_steps ≤ 21474837) :
    (weightsAt ln fader_steps i LINEAR_DECAY).fader_weight ≠ 0 := by
  rw [weightsAt_linear_wrapped]
  show ((wrapInt (100 * (fader_steps - 1)) : Int) : K) ≠ 0
  rw [wrapInt_hundred _ (by omega) (by omega)]
  exact Int.cast_ne_zero.mpr (by omega)

theorem log_base_pos {K : Type} [LinearOrderedField K]
    (ln : K → K) (fader_steps : Int) (hln1 : ln 1 = 0)
    (hmono : ∀ a b : Int, 1 ≤ a → a < b → ln ((a : Int) : K) < ln ((b : Int) : K))
    (h : 2 ≤ fader_steps) : 0 < ln ((fader_steps : Int) : K) := by
  have := hmono 1 fader_steps (le_refl _) (by omega)
  rwa [Int.cast_one, hln1] at this

/-- For a `log` that is zero at 1 and increasing on the positive integers, the logarithmic
weights of every step add up to a positive `fader_weight`. -/
theorem logarithmic_fader_weight_pos {K : Type} [LinearOrderedField K]
    (ln : K → K) (fader_steps i : Int) (hln1 : ln 1 = 0)
    (hmono : ∀ a b : Int, 1 ≤ a → a < b → ln ((a : Int) : K) < ln ((b : Int) : K))
    (h : 2 ≤ fader_steps) (h1 : 1 ≤ i) (h2 : i ≤ fader_steps) :
    0 < (weightsAt ln fader_steps i LOGARITHMIC_DECAY).fader_weight := by
  rw [weightsAt_logarithmic]
  have hL := log_base_pos ln fader_steps hln1 hmono h
  have hle : ∀ a : Int, 1 ≤ a → a ≤ fader_steps →
      ln ((a : Int) : K) / ln ((fader_steps : Int) : K) ≤ 1 := by
    intro a ha1 ha2
    rw [div_le_one hL]
    rcases eq_or_lt_of_le ha2 with e | e
    · rw [e]
    · exact le_of_lt (hmono a fader_steps ha1 e)
  have hlt : ∀ a : Int, 1 ≤ a → a < fader_steps →
      ln ((a : Int) : K) / ln ((fader_steps : Int) : K) < 1 := by
    intro a ha1 ha2
    rw [div_lt_one hL]
    exact hmono a fader_steps ha1 ha2
  show 0 < (100 - (100 * (ln ((fader_steps - i + 1 : Int) : K) / ln ((fader_steps : Int) : K))))
    + (100 - (100 * (ln ((i : Int) : K) / ln ((fader_steps : Int) : K))))
  rcases eq_or_lt_of_le h2 with e | e
  · have a1 := hlt (fader_steps - i + 1) (by omega) (by omega)
    have a2 := hle i h1 h2
    linarith
  · have a1 := hle (fader_steps - i + 1) (by omega) (by omega)
    have a2 := hlt i h1 e
    linarith

end FastFader

/-! ## The frames presented by `push` -/

namespace FastFader

/-- For the three recognised curves, a `log` that is zero at 1 and increasing on the positive
integers, and at least two steps, no division of `push` has a zero divisor. -/
theorem fader_weight_ne_zero {K : Type} [LinearOrderedField K]
    (ln : K → K) (fader_steps d : Int) (hsteps : 2 ≤ fader_steps)
    (hd : d = NO_DECAY ∨ d = LINEAR_DECAY ∨ d = LOGARITHMIC_DECAY)
    (hln : d = LOGARITHMIC_DECAY → LogLike ln) (hb : d = LINEAR_DECAY → fader_steps ≤ 21474837)
    (i : Int) (h1 : 1 ≤ i) (h2 : i ≤ fader_steps) :
    (weightsAt ln fader_steps i d).fader_weight ≠ 0 := by
  rcases hd with h | h | h
  · rw [h, weightsAt_noDecay]
    exact one_ne_zero
  · have hb2 := hb h
    rw [h]
    exact linear_fader_weight_ne_zero ln fader_steps i hsteps hb2
  · obtain ⟨hln1, hmono⟩ := hln h
    rw [h]
    exact ne_of_gt (logarithmic_fader_weight_pos ln fader_steps i hln1 hmono hsteps h1 h2)

/-- At the last step the blend of every recognised curve is the target value. -/
theorem blendValue_last_step {K : Type} [LinearOrderedField K] [FloorRing K]
    (ln : K → K) (fader_steps d : Int) (hsteps : 2 ≤ fader_steps)
    (hd : d = NO_DECAY ∨ d = LINEAR_DECAY ∨ d = LOGARITHMIC_DECAY)
    (hln : d = LOGARITHMIC_DECAY → LogLike ln) (hb : d = LINEAR_DECAY → fader_steps ≤ 21474837)
    (target start : Int) :
    blendValue (weightsAt ln fader_steps fader_steps d) target start = target := by
  rcases hd with h | h | h
  · rw [h, weightsAt_noDecay]
    exact blendValue_target _ _ _ rfl rfl one_ne_zero
  · have hb2 := hb h
    rw [h, weightsAt_linear ln fader_steps fader_steps (by omega) (le_refl _) hb2]
    refine blendValue_target _ _ _ ?_ rfl (Int.cast_ne_zero.mpr (by omega))
    show ((100 * (fader_steps - fader_steps) : Int) : K) = 0
    rw [sub_self, mul_zero, Int.cast_zero]
  · obtain ⟨hln1, hmono⟩ := hln h
    have hL := log_base_pos ln fader_steps hln1 hmono hsteps
    rw [h, weightsAt_logarithmic]
    have e1 : ln ((fader_steps - fader_steps + 1 : Int) : K) = 0 := by
      rw [sub_self, zero_add, Int.cast_one, hln1]
    have e2 : ln ((fader_steps : Int) : K) / ln ((fader_steps : Int) : K) = 1 :=
      div_self (ne_of_gt hL)
    rw [e1, e2]
    refine blendValue_target _ _ _ ?_ ?_ ?_
    · show (100 : K) - 100 * 1 = 0
      ring
    · show (100 : K) - 100 * (0 / ln ((fader_steps : Int) : K)) =
        100 - 100 * (0 / ln ((fader_steps : Int) : K)) + (100 - 100 * 1)
      ring
    · show (100 : K) - 100 * (0 / ln ((fader_steps : Int) : K)) + (100 - 100 * 1) ≠ 0
      rw [zero_div]
      norm_num

/-- At the first step the linear and the logarithmic blend are the start value. -/
theorem blendValue_first_step {K : Type} [LinearOrderedField K] [FloorRing K]
    (ln : K → K) (fader_steps d : Int) (hsteps : 2 ≤ fader_steps)
    (hd : d = LINEAR_DECAY ∨ d = LOGARITHMIC_DECAY)
    (hln : d = LOGARITHMIC_DECAY → LogLike ln) (hb : d = LINEAR_DECAY → fader_steps ≤ 21474837)
    (target start : Int) :
    blendValue (weightsAt ln fader_steps 1 d) target start = start := by
  rcases hd with h | h
  · have hb2 := hb h
    rw [h, weightsAt_linear ln fader_steps 1 (le_refl _) (by omega) hb2]
    refine blendValue_start _ _ _ ?_ rfl (Int.cast_ne_zero.mpr (by omega))
    show ((100 * ((1 : Int) - 1) : Int) : K) = 0
    rw [sub_self, mul_zero, Int.cast_zero]
  · obtain ⟨hln1, hmono⟩ := hln h
    have hL := log_base_pos ln fader_steps hln1 hmono hsteps
    rw [h, weightsAt_logarithmic]
    have e1 : ln (((1 : Int) : Int) : K) = 0 := by
      rw [Int.cast_one, hln1]
    have e0 : fader_steps - 1 + 1 = fader_steps := by omega
    have e2 : ln ((fader_steps - 1 + 1 : Int) : K) / ln ((fader_steps : Int) : K) = 1 := by
      rw [e0]
      exact div_self (ne_of_gt hL)
    rw [e1, e2]
    refine blendValue_start _ _ _ ?_ ?_ ?_
    · show (100 : K) - 100 * 1 = 0
      ring
    · show (100 : K) - 100 * (0 / ln ((fader_steps : Int) : K)) =
        100 - 100 * 1 + (100 - 100 * (0 / ln ((fader_steps : Int) : K)))
      ring
    · show (100 : K) - 100 * 1 + (100 - 100 * (0 / ln ((fader_steps : Int) : K))) ≠ 0
      rw [zero_div]
      norm_num

/-- Only the resolved value of `decay_type` matters to a fade step. -/
theorem fadeStep_congr {K : Type} [LinearOrderedField K] [FloorRing K]
    (ln : K → K) (s : FastFader) (cache : Int → Int → Int)
    (step_delay fader_steps : Int) (log_base : K) (i : Int) (st st2 : FadeState)
    (hd : resolveDecay st.decay_type = resolveDecay st2.decay_type) (hL : st.LEDs = st2.LEDs)
    (ht : st.trace = st2.trace) :
    fadeStep ln s cache step_delay fader_steps log_base i st =
      fadeStep ln s cache step_delay fader_steps log_base i st2 := by
  unfold fadeStep
  rw [hd, hL, ht]

/-- The curve that `push` runs is the resolved one. -/
theorem push_resolveDecay {K : Type} [LinearOrderedField K] [FloorRing K]
    (ln : K → K) (s : FastFader) (fader_delay fader_steps d : Int) :
    push ln s fader_delay fader_steps d = push ln s fader_delay fader_steps (resolveDecay d) := by
  unfold push
  cases idiv fader_delay fader_steps with
  | error e => rfl
  | ok step_delay =>
    cases fader_steps.toNat with
    | zero => rfl
    | succ n =>
      simp only [forLoopM]
      rw [fadeStep_congr ln s (snapshot s) step_delay fader_steps _ 1
        { decay_type := d, LEDs := s.LEDs, trace := [] }
        { decay_type := resolveDecay d, LEDs := s.LEDs, trace := [] }
        (resolveDecay_idem d).symm rfl rfl]

/-- Under the linear curve, a step count whose `int` product `100 * (fader_steps - 1)` is zero
makes the first step divide by a zero `fader_weight` as soon as there is a pixel to blend. -/
theorem push_linear_zero_fader_weight {K : Type} [LinearOrderedField K] [FloorRing K]
    (ln : K → K) (s : FastFader) (fader_delay fader_steps : Int) (hsteps : 1 ≤ fader_steps)
    (hz : wrapInt (100 * (fader_steps - 1)) = 0) (hN : 1 ≤ s.NumLEDs) :
    push ln s fader_delay fader_steps LINEAR_DECAY = Except.error Fault.divByZero := by
  obtain ⟨m, hm⟩ : ∃ m : Nat, s.NumLEDs.toNat = m + 1 := ⟨s.NumLEDs.toNat - 1, by omega⟩
  obtain ⟨n, hn⟩ : ∃ n : Nat, fader_steps.toNat = n + 1 := ⟨fader_steps.toNat - 1, by omega⟩
  have hw : stepWeights ln (ln ((fader_steps : Int) : K)) fader_steps 1
      (resolveDecay LINEAR_DECAY) =
      Except.ok (some (weightsAt ln fader_steps 1 LINEAR_DECAY)) := by
    rw [resolveDecay_of_recognised _ (Or.inr (Or.inl rfl))]
    exact stepWeights_eq ln fader_steps 1 LINEAR_DECAY (Or.inr (Or.inl rfl))
      (fun h => absurd h (by decide))
  have hfw : (weightsAt ln fader_steps 1 LINEAR_DECAY).fader_weight = 0 := by
    rw [weightsAt_linear_wrapped]
    show ((wrapInt (100 * (fader_steps - 1)) : Int) : K) = 0
    rw [hz, Int.cast_zero]
  have hb : ∀ target start : Int,
      blend (some (weightsAt ln fader_steps 1 LINEAR_DECAY)) target start =
        Except.error Fault.divByZero := by
    intro target start
    unfold blend fdiv
    simp only [hfw, if_true]
  have hsend : ∀ leds,
      sendStep s (snapshot s) (some (weightsAt ln fader_steps 1 LINEAR_DECAY)) leds =
        Except.error Fault.divByZero := by
    intro leds
    unfold sendStep
    rw [hm]
    simp only [forLoopM, hb]
  have hidiv : idiv fader_delay fader_steps = Except.ok (Int.tdiv fader_delay fader_steps) :=
    idiv_of_ne _ _ (by omega) (by rintro ⟨_, h⟩; omega)
  unfold push
  simp only [hidiv, hn, forLoopM, fadeStep, hw, hsend]

/-- With one step, the linear curve divides by a zero `fader_weight` as soon as there is a
pixel to blend. -/
theorem push_one_step_linear {K : Type} [LinearOrderedField K] [FloorRing K]
    (ln : K → K) (s : FastFader) (fader_delay : Int)
    (hN : 1 ≤ s.NumLEDs) :
    push ln s fader_delay 1 LINEAR_DECAY = Except.error Fault.divByZero :=
  push_linear_zero_fader_weight ln s fader_delay 1 (le_refl _) (by decide) hN

/-- With one step, the logarithmic curve divides by `log_base = log(1) = 0`. -/
theorem push_one_step_logarithmic {K : Type} [LinearOrderedField K] [FloorRing K]
    (ln : K → K) (s : FastFader) (fader_delay d : Int)
    (hln1 : ln 1 = 0) (hd : resolveDecay d = LOGARITHMIC_DECAY) :
    push ln s fader_delay 1 d = Except.error Fault.divByZero := by
  have hw : ∀ i : Int, stepWeights ln (ln (((1 : Int) : Int) : K)) 1 i LOGARITHMIC_DECAY =
      Except.error Fault.divByZero := by
    intro i
    unfold stepWeights fdiv
    simp only [Int.cast_one, hln1, if_true]
  have hidiv : idiv fader_delay 1 = Except.ok (Int.tdiv fader_delay 1) :=
    idiv_of_ne _ _ (by decide) (by rintro ⟨_, h⟩; exact absurd h (by decide))
  have h1 : (1 : Int).toNat = 1 := rfl
  unfold push
  simp only [hidiv, h1, forLoopM, fadeStep, hd, hw]

end FastFader

namespace FastFader

theorem sampleLn_LogLike : LogLike sampleLn :=
  ⟨sampleLn_one, sampleLn_strictMono⟩

/-- The natural logarithm over the reals has the two properties asked of `log`. -/
theorem real_log_LogLike : LogLike Real.log := by
  refine ⟨Real.log_one, ?_⟩
  intro a b ha hab
  have h0 : (0 : ℝ) < ((a : Int) : ℝ) := by exact_mod_cast (by omega : 0 < a)
  have h1 : ((a : Int) : ℝ) < ((b : Int) : ℝ) := by exact_mod_cast hab
  exact Real.log_lt_log h0 h1

/-- C5, as stated, fails: with `LINEAR_DECAY` and `fader_steps = 1073741825` the `int` product
`100 * (fader_steps - 1)` is `2^32 * 25`, which is 0 in an `int`; `fader_weight` is zero and
`push` divides by it at the first step, so no frame equal to the target comes out. -/
theorem push_last_frame_wrapped_weight :
    wrapInt (100 * (1073741825 - 1)) = 0 ∧
      push sampleLn sampleFader 100 1073741825 LINEAR_DECAY = Except.error Fault.divByZero ∧
      ¬ ∃ s2 evs,
        push sampleLn sampleFader 100 1073741825 LINEAR_DECAY = Except.ok (s2, evs) ∧
          (frames evs).getLast? = some (targetFrame sampleFader) := by
  have hz : wrapInt (100 * (1073741825 - 1)) = 0 := by decide
  have h := push_linear_zero_fader_weight sampleLn sampleFader 100 1073741825 (by decide) hz
    (by decide)
  refine ⟨hz, h, ?_⟩
  rintro ⟨s2, evs, h1, _⟩
  rw [h] at h1
  exact absurd h1 (by simp)

/-- C5, amended: for each of the three curves (the logarithmic one with a `log` that is zero
at 1 and increasing on the positive integers; the linear one with at most 21474837 steps, so
that `100 * (fader_steps - 1)` fits an `int`), at least two steps and a target frame with
channels in `0 .. 255`, `push` runs to its end, presents one frame per step, and the last
frame presented, which is the frame left on the display, is the target frame. -/
theorem push_last_frame_is_target {K : Type} [LinearOrderedField K] [FloorRing K] (ln : K → K)
    (s : FastFader) (fader_delay fader_steps decay_type : Int) (hsteps : 2 ≤ fader_steps)
    (hd : decay_type = NO_DECAY ∨ decay_type = LINEAR_DECAY ∨ decay_type = LOGARITHMIC_DECAY)
    (hln : decay_type = LOGARITHMIC_DECAY → LogLike ln)
    (hbound : decay_type = LINEAR_DECAY → fader_steps ≤ 21474837)
    (htarget : ChannelsBounded s) :
    ∃ s2 evs, push ln s fader_delay fader_steps decay_type = Except.ok (s2, evs) ∧
      (frames evs).length = fader_steps.toNat ∧
      (frames evs).getLast? = some (targetFrame s) ∧
      displayFrame s2 = targetFrame s := by
  have hr : resolveDecay decay_type = decay_type := resolveDecay_of_recognised _ hd
  have hlast : fadeFrame s (weightsAt ln fader_steps fader_steps decay_type) = targetFrame s :=
    fadeFrame_eq_target s _
      (blendValue_last_step ln fader_steps decay_type hsteps hd hln hbound) htarget
  have hpush := push_eq ln s fader_delay fader_steps decay_type (by omega)
    (fun h => by
      obtain ⟨hln1, hmono⟩ := hln (hr ▸ h)
      exact ne_of_gt (log_base_pos ln fader_steps hln1 hmono hsteps))
    (by rw [hr]; exact fader_weight_ne_zero ln fader_steps decay_type hsteps hd hln hbound)
  rw [hr] at hpush
  obtain ⟨m, hm⟩ : ∃ m : Nat, fader_steps.toNat = m + 1 := ⟨fader_steps.toNat - 1, by omega⟩
  have hidx : (1 : Int) + (m : Int) = fader_steps := by omega
  refine ⟨_, _, hpush, frames_fadeTrace_length _ _ _ _, ?_, ?_⟩
  · rw [hm, frames_fadeTrace_getLast, hidx, hlast]
  · exact (shownFrame_fadeLEDs s _ s.LEDs).trans hlast

theorem push_last_frame_is_target_witness :
    (∃ s2 evs, push sampleLn sampleFader 100 10 LOGARITHMIC_DECAY = Except.ok (s2, evs) ∧
      (frames evs).length = (10 : Int).toNat ∧
      (frames evs).getLast? = some (targetFrame sampleFader) ∧
      displayFrame s2 = targetFrame sampleFader) ∧
    ∃ s2 evs, push sampleLn sampleFader 100 21474837 LINEAR_DECAY = Except.ok (s2, evs) ∧
      (frames evs).length = (21474837 : Int).toNat ∧
      (frames evs).getLast? = some (targetFrame sampleFader) ∧
      displayFrame s2 = targetFrame sampleFader :=
  ⟨push_last_frame_is_target sampleLn sampleFader 100 10 LOGARITHMIC_DECAY (by decide)
      (Or.inr (Or.inr rfl)) (fun _ => sampleLn_LogLike) (fun h => absurd h (by decide))
      sampleFader_ChannelsBounded,
    push_last_frame_is_target sampleLn sampleFader 100 21474837 LINEAR_DECAY (by decide)
      (Or.inr (Or.inl rfl)) (fun h => absurd h (by decide)) (fun _ => by decide)
      sampleFader_ChannelsBounded⟩

/-- C6, as stated, fails: with `LINEAR_DECAY` and `fader_steps = 1073741825` the `int` product
`100 * (fader_steps - 1)` is 0, so the first step divides by a zero `fader_weight` and the
frame that was on the display is not what `push` presents first. -/
theorem push_first_frame_wrapped_weight :
    ¬ ∃ s2 evs,
      push sampleLn sampleFader 100 1073741825 LINEAR_DECAY = Except.ok (s2, evs) ∧
        (frames evs).head? = some (displayFrame sampleFader) := by
  have h := push_linear_zero_fader_weight sampleLn sampleFader 100 1073741825 (by decide)
    (by decide) (by decide)
  rintro ⟨s2, evs, h1, _⟩
  rw [h] at h1
  exact absurd h1 (by simp)

/-- C6, amended: for the linear curve with at most 21474837 steps (so that
`100 * (fader_steps - 1)` fits an `int`) and the logarithmic curve (with a `log` that is zero
at 1 and increasing on the positive integers), at least two steps, a display frame of 8-bit
channels and any target frame, `push` runs to its end and the first frame it presents is the
frame that was on the display before the call. -/
theorem push_first_frame_is_start {K : Type} [LinearOrderedField K] [FloorRing K] (ln : K → K)
    (s : FastFader) (fader_delay fader_steps decay_type : Int) (hsteps : 2 ≤ fader_steps)
    (hd : decay_type = LINEAR_DECAY ∨ decay_type = LOGARITHMIC_DECAY)
    (hln : decay_type = LOGARITHMIC_DECAY → LogLike ln)
    (hbound : decay_type = LINEAR_DECAY → fader_steps ≤ 21474837)
    (hdisplay : DisplayBounded s) :
    ∃ s2 evs, push ln s fader_delay fader_steps decay_type = Except.ok (s2, evs) ∧
      (frames evs).head? = some (displayFrame s) := by
  have hd3 : decay_type = NO_DECAY ∨ decay_type = LINEAR_DECAY ∨
      decay_type = LOGARITHMIC_DECAY := Or.inr hd
  have hr : resolveDecay decay_type = decay_type := resolveDecay_of_recognised _ hd3
  have hfirst : fadeFrame s (weightsAt ln fader_steps 1 decay_type) = displayFrame s :=
    fadeFrame_eq_display s _
      (blendValue_first_step ln fader_steps decay_type hsteps hd hln hbound) hdisplay
  have hpush := push_eq ln s fader_delay fader_steps decay_type (by omega)
    (fun h => by
      obtain ⟨hln1, hmono⟩ := hln (hr ▸ h)
      exact ne_of_gt (log_base_pos ln fader_steps hln1 hmono hsteps))
    (by rw [hr]; exact fader_weight_ne_zero ln fader_steps decay_type hsteps hd3 hln hbound)
  rw [hr] at hpush
  obtain ⟨m, hm⟩ : ∃ m : Nat, fader_steps.toNat = m + 1 := ⟨fader_steps.toNat - 1, by omega⟩
  refine ⟨_, _, hpush, ?_⟩
  rw [hm, frames_fadeTrace_head, hfirst]

theorem push_first_frame_is_start_witness :
    (∃ s2 evs, push sampleLn sampleFader 100 10 LINEAR_DECAY = Except.ok (s2, evs) ∧
      (frames evs).head? = some (displayFrame sampleFader)) ∧
    ∃ s2 evs, push sampleLn sampleFader 100 10 LOGARITHMIC_DECAY = Except.ok (s2, evs) ∧
      (frames evs).head? = some (displayFrame sampleFader) :=
  ⟨push_first_frame_is_start sampleLn sampleFader 100 10 LINEAR_DECAY (by decide)
      (Or.inl rfl) (fun h => absurd h (by decide)) (fun _ => by decide)
      sampleFader_DisplayBounded,
    push_first_frame_is_start sampleLn sampleFader 100 10 LOGARITHMIC_DECAY (by decide)
      (Or.inr rfl) (fun _ => sampleLn_LogLike) (fun h => absurd h (by decide))
      sampleFader_DisplayBounded⟩

/-- C7: with `NO_DECAY`, at least one step and a target frame with channels in `0 .. 255`,
`push` runs to its end and every one of the `fader_steps` frames it presents is the target
frame, whatever the display showed before. -/
theorem push_no_decay_repeats_target {K : Type} [LinearOrderedField K] [FloorRing K]
    (ln : K → K) (s : FastFader) (fader_delay fader_steps : Int) (hsteps : 1 ≤ fader_steps)
    (htarget : ChannelsBounded s) :
    ∃ s2 evs, push ln s fader_delay fader_steps NO_DECAY = Except.ok (s2, evs) ∧
      frames evs = List.replicate fader_steps.toNat (targetFrame s) := by
  have hr : resolveDecay NO_DECAY = NO_DECAY := resolveDecay_of_recognised _ (Or.inl rfl)
  have hframe : ∀ i : Int, fadeFrame s (weightsAt ln fader_steps i NO_DECAY) = targetFrame s := by
    intro i
    rw [weightsAt_noDecay]
    exact fadeFrame_eq_target s _
      (fun target start => blendValue_target _ _ _ rfl rfl one_ne_zero) htarget
  have hpush := push_eq ln s fader_delay fader_steps NO_DECAY (by omega)
    (fun h => absurd (hr ▸ h) (by decide))
    (fun i _ _ => by
      rw [hr, weightsAt_noDecay]
      exact one_ne_zero)
  rw [hr] at hpush
  exact ⟨_, _, hpush, frames_fadeTrace_const _ _ _ hframe _ _⟩

theorem push_no_decay_repeats_target_witness :
    ∃ s2 evs, push sampleLn sampleFader 100 4 NO_DECAY = Except.ok (s2, evs) ∧
      frames evs = List.replicate (4 : Int).toNat (targetFrame sampleFader) :=
  push_no_decay_repeats_target sampleLn sampleFader 100 4 (by decide)
    sampleFader_ChannelsBounded

/-- C8: on the three-pixel sample fader, `push` with one step divides by zero under the linear
curve (`fader_weight = 100 * (1 - 1)`), under the logarithmic curve (`log_base = log(1)`) and
under an unrecognised curve value. -/
theorem push_one_step_divides_by_zero :
    push sampleLn sampleFader 100 1 LINEAR_DECAY = Except.error Fault.divByZero ∧
      push sampleLn sampleFader 100 1 LOGARITHMIC_DECAY = Except.error Fault.divByZero ∧
      push sampleLn sampleFader 100 1 7 = Except.error Fault.divByZero :=
  ⟨push_one_step_linear sampleLn sampleFader 100 (by decide),
    push_one_step_logarithmic sampleLn sampleFader 100 LOGARITHMIC_DECAY sampleLn_one
      (by decide),
    push_one_step_logarithmic sampleLn sampleFader 100 7 sampleLn_one (by decide)⟩

/-- C9, as stated, fails: with `fader_steps = -2` the quotient `fader_delay / fader_steps` is
evaluated and `push` presents no frame at all; with `fader_steps = 0` that division has a
zero divisor; and with `fader_delay = INT_MIN`, `fader_steps = -1` its quotient is not an
`int`. -/
theorem push_nonpositive_steps_counterexample :
    push sampleLn sampleFader 100 (-2) NO_DECAY = Except.ok (sampleFader, []) ∧
      idiv 100 (-2) = Except.ok (-50) ∧
      (¬ ∃ s2 evs, push sampleLn sampleFader 100 (-2) NO_DECAY = Except.ok (s2, evs) ∧
        frames evs = [targetFrame sampleFader]) ∧
      push sampleLn sampleFader 100 0 NO_DECAY = Except.error Fault.divByZero ∧
      push sampleLn sampleFader INT_MIN (-1) NO_DECAY = Except.error Fault.divByZero := by
  have h := push_of_neg sampleLn sampleFader 100 (-2) NO_DECAY (by decide)
    (by rintro ⟨h, _⟩; exact absurd h (by decide))
  refine ⟨h, rfl, ?_, push_of_zero sampleLn sampleFader 100 NO_DECAY,
    push_of_overflow sampleLn sampleFader NO_DECAY⟩
  rintro ⟨s2, evs, h1, h2⟩
  rw [h] at h1
  injection h1 with h3
  injection h3 with _ h4
  rw [← h4] at h2
  exact absurd h2 (by simp [frames])

/-- C9, amended: for every negative step count, every delay and every curve value, except
the pair `fader_delay = INT_MIN`, `fader_steps = -1` whose quotient is not an `int`, `push`
evaluates `fader_delay / fader_steps` with a non-zero divisor, presents no frame, requests no
delay and leaves the fader as it was. -/
theorem push_negative_steps_does_nothing {K : Type} [LinearOrderedField K] [FloorRing K]
    (ln : K → K) (s : FastFader) (fader_delay fader_steps decay_type : Int)
    (hsteps : fader_steps < 0) (hq : ¬ (fader_delay = INT_MIN ∧ fader_steps = -1)) :
    idiv fader_delay fader_steps = Except.ok (Int.tdiv fader_delay fader_steps) ∧
      ∃ evs, push ln s fader_delay fader_steps decay_type = Except.ok (s, evs) ∧
        frames evs = [] ∧ delays evs = [] :=
  ⟨idiv_of_ne _ _ (by omega) hq, [],
    push_of_neg ln s fader_delay fader_steps decay_type hsteps hq, rfl, rfl⟩

theorem push_negative_steps_does_nothing_witness :
    idiv 100 (-3) = Except.ok (Int.tdiv 100 (-3)) ∧
      ∃ evs, push sampleLn sampleFader 100 (-3) LINEAR_DECAY = Except.ok (sampleFader, evs) ∧
        frames evs = [] ∧ delays evs = [] :=
  push_negative_steps_does_nothing sampleLn sampleFader 100 (-3) LINEAR_DECAY (by decide)
    (by rintro ⟨h, _⟩; exact absurd h (by decide))

/-- C10: for every `decay_type` below -1 or above 1, `push` does exactly what it does for
`LOGARITHMIC_DECAY`: the same outcome, the same frames and the same delays in the same order
(for every step count, so in particular for two steps or more). -/
theorem push_unrecognised_curve_is_logarithmic {K : Type} [LinearOrderedField K] [FloorRing K]
    (ln : K → K) (s : FastFader) (fader_delay fader_steps decay_type : Int)
    (hd : decay_type < -1 ∨ decay_type > 1) :
    push ln s fader_delay fader_steps decay_type =
      push ln s fader_delay fader_steps LOGARITHMIC_DECAY := by
  have hr : resolveDecay decay_type = LOGARITHMIC_DECAY := by
    unfold resolveDecay
    rw [if_pos hd]
  rw [push_resolveDecay, hr]

theorem push_unrecognised_curve_is_logarithmic_witness :
    push sampleLn sampleFader 100 10 7 = push sampleLn sampleFader 100 10 LOGARITHMIC_DECAY :=
  push_unrecognised_curve_is_logarithmic sampleLn sampleFader 100 10 7 (by decide)

end FastFader

/-! ## Pacing of `push` -/

namespace FastFader

/-- The trace of `n` fade steps holds `n` frames. -/
theorem frames_fadeTrace_length_int (frame : Int → List (Int × Int × Int)) (step_delay : Int)
    (fader_steps : Int) (h : 0 ≤ fader_steps) :
    ((frames (fadeTrace frame step_delay fader_steps.toNat 1)).length : Int) = fader_steps := by
  rw [frames_fadeTrace_length]
  omega

/-- C11: for at least one step, a non-negative `fader_delay` and a curve whose divisions have
no zero divisor at any step, `push` runs to its end; its trace is `fader_steps` times a frame
followed by one delay of `fader_delay / fader_steps` (rounded down), and the delays add up to
more than `fader_delay - fader_steps` and at most `fader_delay`. -/
theorem push_presents_and_sleeps_once_per_step {K : Type} [LinearOrderedField K] [FloorRing K]
    (ln : K → K) (s : FastFader) (fader_delay fader_steps decay_type : Int)
    (hsteps : 1 ≤ fader_steps) (hdelay : 0 ≤ fader_delay)
    (hlog : resolveDecay decay_type = LOGARITHMIC_DECAY → ln ((fader_steps : Int) : K) ≠ 0)
    (hfw : ∀ i : Int, 1 ≤ i → i ≤ fader_steps →
      (weightsAt ln fader_steps i (resolveDecay decay_type)).fader_weight ≠ 0) :
    ∃ s2 frame,
      push ln s fader_delay fader_steps decay_type =
        Except.ok (s2, fadeTrace frame (fader_delay / fader_steps) fader_steps.toNat 1) ∧
      ((frames (fadeTrace frame (fader_delay / fader_steps) fader_steps.toNat 1)).length : Int) =
        fader_steps ∧
      delays (fadeTrace frame (fader_delay / fader_steps) fader_steps.toNat 1) =
        List.replicate fader_steps.toNat (fader_delay / fader_steps) ∧
      fader_delay - fader_steps < fader_steps * (fader_delay / fader_steps) ∧
      fader_steps * (fader_delay / fader_steps) ≤ fader_delay := by
  have hpush := push_eq ln s fader_delay fader_steps decay_type (by omega) hlog hfw
  rw [Int.tdiv_eq_ediv hdelay (by omega)] at hpush
  have hpos : 0 < fader_steps := by omega
  have h1 : fader_delay / fader_steps * fader_steps ≤ fader_delay :=
    Int.ediv_mul_le fader_delay (by omega)
  have h2 : fader_delay < (fader_delay / fader_steps + 1) * fader_steps :=
    Int.lt_ediv_add_one_mul_self fader_delay hpos
  refine ⟨_, _, hpush, frames_fadeTrace_length_int _ _ _ (by omega), delays_fadeTrace _ _ _ _,
    ?_, ?_⟩
  · have e : (fader_delay / fader_steps + 1) * fader_steps =
        fader_steps * (fader_delay / fader_steps) + fader_steps := by ring
    omega
  · have e : fader_delay / fader_steps * fader_steps =
        fader_steps * (fader_delay / fader_steps) := by ring
    omega

theorem push_presents_and_sleeps_once_per_step_witness :
    ∃ s2 frame,
      push sampleLn sampleFader 100 7 LOGARITHMIC_DECAY =
        Except.ok (s2, fadeTrace frame ((100 : Int) / 7) (7 : Int).toNat 1) ∧
      ((frames (fadeTrace frame ((100 : Int) / 7) (7 : Int).toNat 1)).length : Int) = 7 ∧
      delays (fadeTrace frame ((100 : Int) / 7) (7 : Int).toNat 1) =
        List.replicate (7 : Int).toNat ((100 : Int) / 7) ∧
      (100 : Int) - 7 < 7 * ((100 : Int) / 7) ∧ 7 * ((100 : Int) / 7) ≤ (100 : Int) :=
  push_presents_and_sleeps_once_per_step sampleLn sampleFader 100 7 LOGARITHMIC_DECAY
    (by decide) (by decide)
    (fun _ => ne_of_gt (log_base_pos sampleLn 7 sampleLn_one sampleLn_strictMono (by decide)))
    (fader_weight_ne_zero sampleLn 7 (resolveDecay LOGARITHMIC_DECAY) (by decide)
      (Or.inr (Or.inr rfl)) (fun _ => sampleLn_LogLike) (fun _ => by decide))

end FastFader

/-! ## The linear curve -/

namespace FastFader

/-- Truncating the quotient of two integers, taken in `K`, is integer division when the
dividend is non-negative and the divisor positive. -/
theorem toInt_intCast_div {K : Type} [LinearOrderedField K] [FloorRing K]
    (a b : Int) (ha : 0 ≤ a) (hb : 0 < b) : toInt (((a : Int) : K) / ((b : Int) : K)) = a / b := by
  have hbK : (0 : K) < ((b : Int) : K) := by exact_mod_cast hb
  have haK : (0 : K) ≤ ((a : Int) : K) := by exact_mod_cast ha
  unfold toInt
  rw [if_pos (div_nonneg haK (le_of_lt hbK)), Int.floor_eq_iff]
  constructor
  · rw [le_div_iff₀ hbK]
    exact_mod_cast Int.ediv_mul_le a (ne_of_gt hb)
  · rw [div_lt_iff₀ hbK]
    exact_mod_cast Int.lt_ediv_add_one_mul_self a hb

/-- The linear block of `push` computes its three weights without any division: they are
the three `int` products. -/
theorem stepWeights_linear_wrapped {K : Type} [LinearOrderedField K]
    (ln : K → K) (log_base : K) (fader_steps current_step : Int) :
    stepWeights ln log_base fader_steps current_step LINEAR_DECAY =
      Except.ok (some
        { previous_weight := ((wrapInt (100 * (fader_steps - current_step)) : Int) : K)
          current_weight := ((wrapInt (100 * (current_step - 1)) : Int) : K)
          fader_weight := ((wrapInt (100 * (fader_steps - 1)) : Int) : K) }) := by
  unfold stepWeights
  simp [NO_DECAY, LINEAR_DECAY, LOGARITHMIC_DECAY]

/-- While `100 * (fader_steps - 1)` fits an `int`, the linear block of `push` computes, at the
steps `1 .. fader_steps`, the products themselves. -/
theorem stepWeights_linear {K : Type} [LinearOrderedField K]
    (ln : K → K) (log_base : K) (fader_steps current_step : Int) (h1 : 1 ≤ current_step)
    (h2 : current_step ≤ fader_steps) (hb : fader_steps ≤ 21474837) :
    stepWeights ln log_base fader_steps current_step LINEAR_DECAY =
      Except.ok (some
        { previous_weight := ((100 * (fader_steps - current_step) : Int) : K)
          current_weight := ((100 * (current_step - 1) : Int) : K)
          fader_weight := ((100 * (fader_steps - 1) : Int) : K) }) := by
  rw [stepWeights_linear_wrapped, wrapInt_hundred _ (by omega) (by omega),
    wrapInt_hundred _ (by omega) (by omega), wrapInt_hundred _ (by omega) (by omega)]

/-- The three `int` products of the linear block at `fader_steps = 21474838`, step 2: the
third one does not fit an `int` and comes out negative. -/
theorem wrapped_linear_products :
    wrapInt (100 * (21474838 - 2)) = 2147483600 ∧ wrapInt (100 * (2 - 1)) = 100 ∧
      wrapInt (100 * (21474838 - 1)) = -2147483596 := by
  decide

/-- The linear weights at `fader_steps = 21474838`, step 2. -/
theorem stepWeights_linear_overflow {K : Type} [LinearOrderedField K]
    (ln : K → K) (log_base : K) :
    stepWeights ln log_base 21474838 2 LINEAR_DECAY =
      Except.ok (some
        { previous_weight := ((2147483600 : Int) : K)
          current_weight := ((100 : Int) : K)
          fader_weight := ((-2147483596 : Int) : K) }) := by
  rw [stepWeights_linear_wrapped, wrapped_linear_products.1, wrapped_linear_products.2.1,
    wrapped_linear_products.2.2]

/-- With those weights a start value of 10 and a target value of 0 blend to
`int(21474836000.0 / -2147483596.0) = -10`. -/
theorem blend_linear_overflow :
    blend
        (some
          ({ previous_weight := ((2147483600 : Int) : ℚ)
             current_weight := ((100 : Int) : ℚ)
             fader_weight := ((-2147483596 : Int) : ℚ) } : Weights ℚ))
        0 10 = Except.ok (-10) := by
  have hfw : (((-2147483596 : Int) : ℚ)) ≠ 0 := by norm_num
  rw [blend_eq _ _ _ hfw]
  congr 1
  have hq : ((((0 : Int) : ℚ) * ((100 : Int) : ℚ)) + (((10 : Int) : ℚ) * ((2147483600 : Int) : ℚ))) /
      ((-2147483596 : Int) : ℚ) = -(21474836000 / 2147483596) := by norm_num
  show toInt (((((0 : Int) : ℚ) * ((100 : Int) : ℚ)) +
    (((10 : Int) : ℚ) * ((2147483600 : Int) : ℚ))) / ((-2147483596 : Int) : ℚ)) = -10
  rw [hq]
  unfold toInt
  rw [if_neg (by norm_num), Int.ceil_eq_iff]
  norm_num

/-- The value that a linear fade step computes for a channel is an integer quotient. -/
theorem blend_linear {K : Type} [LinearOrderedField K] [FloorRing K]
    (fader_steps current_step target start : Int) (hsteps : 2 ≤ fader_steps)
    (h1 : 1 ≤ current_step) (h2 : current_step ≤ fader_steps) (ht : 0 ≤ target)
    (hs : 0 ≤ start) :
    blend
        (some
          ({ previous_weight := ((100 * (fader_steps - current_step) : Int) : K)
             current_weight := ((100 * (current_step - 1) : Int) : K)
             fader_weight := ((100 * (fader_steps - 1) : Int) : K) } : Weights K))
        target start =
      Except.ok
        ((target * (100 * (current_step - 1)) + start * (100 * (fader_steps - current_step))) /
          (100 * (fader_steps - 1))) := by
  have hD : (0 : Int) < 100 * (fader_steps - 1) := by omega
  have hN : (0 : Int) ≤
      target * (100 * (current_step - 1)) + start * (100 * (fader_steps - current_step)) :=
    add_nonneg (mul_nonneg ht (by omega)) (mul_nonneg hs (by omega))
  rw [blend_eq _ _ _ (Int.cast_ne_zero.mpr (ne_of_gt hD))]
  unfold blendValue
  have e := @toInt_intCast_div K _ _ _ _ hN hD
  rw [← e]
  congr 3
  push_cast
  ring

/-- The integer quotient of a linear fade step lies between the start and the target value. -/
theorem linear_quotient_bounds (fader_steps current_step target start : Int)
    (hsteps : 2 ≤ fader_steps) (h1 : 1 ≤ current_step) (h2 : current_step ≤ fader_steps) :
    min start target ≤
        (target * (100 * (current_step - 1)) + start * (100 * (fader_steps - current_step))) /
          (100 * (fader_steps - 1)) ∧
      (target * (100 * (current_step - 1)) + start * (100 * (fader_steps - current_step))) /
          (100 * (fader_steps - 1)) ≤ max start target := by
  have hD : (0 : Int) < 100 * (fader_steps - 1) := by omega
  have ha : (0 : Int) ≤ 100 * (current_step - 1) := by omega
  have hb : (0 : Int) ≤ 100 * (fader_steps - current_step) := by omega
  have hsum : 100 * (current_step - 1) + 100 * (fader_steps - current_step) =
      100 * (fader_steps - 1) := by ring
  constructor
  · rw [Int.le_ediv_iff_mul_le hD]
    have e1 : min start target * (100 * (current_step - 1)) ≤
        target * (100 * (current_step - 1)) :=
      mul_le_mul_of_nonneg_right (min_le_right _ _) ha
    have e2 : min start target * (100 * (fader_steps - current_step)) ≤
        start * (100 * (fader_steps - current_step)) :=
      mul_le_mul_of_nonneg_right (min_le_left _ _) hb
    calc min start target * (100 * (fader_steps - 1))
        = min start target * (100 * (current_step - 1)) +
            min start target * (100 * (fader_steps - current_step)) := by rw [← hsum]; ring
      _ ≤ target * (100 * (current_step - 1)) + start * (100 * (fader_steps - current_step)) :=
          add_le_add e1 e2
  · have e1 : target * (100 * (current_step - 1)) ≤
        max start target * (100 * (current_step - 1)) :=
      mul_le_mul_of_nonneg_right (le_max_right _ _) ha
    have e2 : start * (100 * (fader_steps - current_step)) ≤
        max start target * (100 * (fader_steps - current_step)) :=
      mul_le_mul_of_nonneg_right (le_max_left _ _) hb
    have e3 : target * (100 * (current_step - 1)) + start * (100 * (fader_steps - current_step)) ≤
        max start target * (100 * (fader_steps - 1)) := by
      calc target * (100 * (current_step - 1)) + start * (100 * (fader_steps - current_step))
          ≤ max start target * (100 * (current_step - 1)) +
              max start target * (100 * (fader_steps - current_step)) := add_le_add e1 e2
        _ = max start target * (100 * (fader_steps - 1)) := by rw [← hsum]; ring
    exact Int.ediv_le_of_le_mul hD e3

end FastFader

namespace FastFader

/-- C12, as stated, fails: with four steps, at step 3, a start value of 0 and a target value
of 1, the linear block gives the weights 100, 200, 300; the value computed is
`int(200 / 300) = 0`, while the quotient rounded to the nearest integer is 1.  And with
21474838 steps, at step 2, a start value of 10 and a target value of 0, the `int` product
`100 * (fader_steps - 1)` does not fit: the value computed is -10, stored as 246, while the
exact quotient rounds to 10. -/
theorem linear_blend_is_not_rounded :
    (∃ w : Weights ℚ,
      stepWeights sampleLn (sampleLn 4) 4 3 LINEAR_DECAY = Except.ok (some w) ∧
        blend (some w) 1 0 = Except.ok 0 ∧ roundedBlend w 1 0 = 1) ∧
    ∃ w : Weights ℚ,
      stepWeights sampleLn (sampleLn 21474838) 21474838 2 LINEAR_DECAY = Except.ok (some w) ∧
        blend (some w) 0 10 = Except.ok (-10) ∧ toUInt8 (-10) = 246 ∧
        roundedBlend w 0 10 = 0 ∧
        round (((0 : ℚ) * (100 * (2 - 1)) + 10 * (100 * (21474838 - 2))) /
          (100 * (21474838 - 1))) = 10 := by
  constructor
  · refine ⟨_, stepWeights_linear sampleLn (sampleLn 4) 4 3 (by decide) (by decide)
      (by decide), ?_, ?_⟩
    · exact (blend_linear 4 3 1 0 (by decide) (by decide) (by decide) (by decide)
        (by decide)).trans (congrArg Except.ok (by decide))
    · have hq : ((((1 : Int) : ℚ) * (((100 * (3 - 1) : Int)) : ℚ)) +
          (((0 : Int) : ℚ) * (((100 * (4 - 3) : Int)) : ℚ))) / (((100 * (4 - 1) : Int)) : ℚ) =
          2 / 3 := by norm_num
      have hr : round ((2 : ℚ) / 3) = 1 := by
        rw [round_eq, Int.floor_eq_iff]
        norm_num
      show min 255 (max 0 (round (((((1 : Int) : ℚ) * (((100 * (3 - 1) : Int)) : ℚ)) +
          (((0 : Int) : ℚ) * (((100 * (4 - 3) : Int)) : ℚ))) /
            (((100 * (4 - 1) : Int)) : ℚ)))) = 1
      rw [hq, hr]
      decide
  · refine ⟨_, stepWeights_linear_overflow sampleLn (sampleLn 21474838), blend_linear_overflow,
      by decide, ?_, ?_⟩
    · have hr : round (((((0 : Int) : ℚ) * ((100 : Int) : ℚ)) +
          (((10 : Int) : ℚ) * ((2147483600 : Int) : ℚ))) / ((-2147483596 : Int) : ℚ)) = -10 := by
        rw [round_eq, Int.floor_eq_iff]
        norm_num
      show min 255 (max 0 (round (((((0 : Int) : ℚ) * ((100 : Int) : ℚ)) +
          (((10 : Int) : ℚ) * ((2147483600 : Int) : ℚ))) / ((-2147483596 : Int) : ℚ)))) = 0
      rw [hr]
      decide
    · rw [round_eq, Int.floor_eq_iff]
      norm_num

/-- C12, amended: for the linear curve, at least two and at most 21474837 steps (so that
`100 * (fader_steps - 1)` fits an `int`), a step in `1 .. fader_steps` and start and target
values in `0 .. 255`, the channel value computed by `push` is the quotient of
`target * current_weight + start * previous_weight` by `fader_weight` truncated toward zero;
it is in `0 .. 255`, so the 8-bit channel of the display stores it unchanged. -/
theorem linear_blend_is_truncated {K : Type} [LinearOrderedField K] [FloorRing K]
    (ln : K → K) (log_base : K) (fader_steps current_step target start : Int)
    (hsteps : 2 ≤ fader_steps) (hbound : fader_steps ≤ 21474837) (h1 : 1 ≤ current_step)
    (h2 : current_step ≤ fader_steps) (ht : 0 ≤ target ∧ target ≤ 255)
    (hs : 0 ≤ start ∧ start ≤ 255) :
    ∃ w : Weights K,
      stepWeights ln log_base fader_steps current_step LINEAR_DECAY = Except.ok (some w) ∧
      blend (some w) target start =
        Except.ok
          (Int.tdiv
            (target * (100 * (current_step - 1)) + start * (100 * (fader_steps - current_step)))
            (100 * (fader_steps - 1))) ∧
      toUInt8
          (Int.tdiv
            (target * (100 * (current_step - 1)) + start * (100 * (fader_steps - current_step)))
            (100 * (fader_steps - 1))) =
        Int.tdiv
          (target * (100 * (current_step - 1)) + start * (100 * (fader_steps - current_step)))
          (100 * (fader_steps - 1)) := by
  have hN : (0 : Int) ≤
      target * (100 * (current_step - 1)) + start * (100 * (fader_steps - current_step)) :=
    add_nonneg (mul_nonneg ht.1 (by omega)) (mul_nonneg hs.1 (by omega))
  have hb := linear_quotient_bounds fader_steps current_step target start hsteps h1 h2
  rw [Int.tdiv_eq_ediv hN (by omega)]
  refine ⟨_, stepWeights_linear ln log_base fader_steps current_step h1 h2 hbound,
    blend_linear fader_steps current_step target start hsteps h1 h2 ht.1 hs.1, ?_⟩
  apply toUInt8_of_bounds
  · exact le_trans (le_min hs.1 ht.1) hb.1
  · exact le_trans hb.2 (max_le hs.2 ht.2)

theorem linear_blend_is_truncated_witness :
    ∃ w : Weights ℚ,
      stepWeights sampleLn (sampleLn 4) 4 3 LINEAR_DECAY = Except.ok (some w) ∧
      blend (some w) 1 0 =
        Except.ok (Int.tdiv (1 * (100 * (3 - 1)) + 0 * (100 * (4 - 3))) (100 * (4 - 1))) ∧
      toUInt8 (Int.tdiv (1 * (100 * (3 - 1)) + 0 * (100 * (4 - 3))) (100 * (4 - 1))) =
        Int.tdiv (1 * (100 * (3 - 1)) + 0 * (100 * (4 - 3))) (100 * (4 - 1)) :=
  linear_blend_is_truncated sampleLn (sampleLn 4) 4 3 1 0 (by decide) (by decide) (by decide)
    (by decide) (by decide) (by decide)

/-- C14, as stated, fails: with 21474838 steps, at step 2, the `int` product
`100 * (fader_steps - 1)` does not fit; `fader_weight` is -2147483596, which is neither
`100 * (fader_steps - 1)` nor the sum of the other two weights. -/
theorem wrapped_linear_weights_disagree :
    ∃ w : Weights ℚ,
      stepWeights sampleLn (sampleLn 21474838) 21474838 2 LINEAR_DECAY = Except.ok (some w) ∧
      w.previous_weight = 2147483600 ∧ w.current_weight = 100 ∧
      w.fader_weight = -2147483596 ∧
      w.fader_weight ≠ ((100 * (21474838 - 1) : Int) : ℚ) ∧
      w.previous_weight + w.current_weight ≠ w.fader_weight := by
  refine ⟨_, stepWeights_linear_overflow sampleLn (sampleLn 21474838), ?_, ?_, ?_, ?_, ?_⟩
  · show ((2147483600 : Int) : ℚ) = 2147483600
    norm_num
  · show ((100 : Int) : ℚ) = 100
    norm_num
  · show ((-2147483596 : Int) : ℚ) = -2147483596
    norm_num
  · show ((-2147483596 : Int) : ℚ) ≠ ((100 * (21474838 - 1) : Int) : ℚ)
    norm_num
  · show ((2147483600 : Int) : ℚ) + ((100 : Int) : ℚ) ≠ ((-2147483596 : Int) : ℚ)
    norm_num

/-- C14, amended: for `LINEAR_DECAY`, a step in `1 .. fader_steps` and at most 21474837 steps
(so that `100 * (fader_steps - 1)` fits an `int`), the weights computed by `push` are
`previous_weight = 100 * (fader_steps - current_step)`,
`current_weight = 100 * (current_step - 1)` and `fader_weight = 100 * (fader_steps - 1)`,
and the first two add up to the third. -/
theorem linear_weights {K : Type} [LinearOrderedField K] (ln : K → K) (log_base : K)
    (fader_steps current_step : Int) (h1 : 1 ≤ current_step) (h2 : current_step ≤ fader_steps)
    (hbound : fader_steps ≤ 21474837) :
    ∃ w : Weights K,
      stepWeights ln log_base fader_steps current_step LINEAR_DECAY = Except.ok (some w) ∧
      w.previous_weight = ((100 * (fader_steps - current_step) : Int) : K) ∧
      w.current_weight = ((100 * (current_step - 1) : Int) : K) ∧
      w.fader_weight = ((100 * (fader_steps - 1) : Int) : K) ∧
      w.previous_weight + w.current_weight = w.fader_weight := by
  refine ⟨_, stepWeights_linear ln log_base fader_steps current_step h1 h2 hbound, rfl, rfl,
    rfl, ?_⟩
  show ((100 * (fader_steps - current_step) : Int) : K) + ((100 * (current_step - 1) : Int) : K) =
    ((100 * (fader_steps - 1) : Int) : K)
  push_cast
  ring

theorem linear_weights_witness :
    ∃ w : Weights ℚ,
      stepWeights sampleLn (sampleLn 21474837) 21474837 2 LINEAR_DECAY = Except.ok (some w) ∧
      w.previous_weight = ((100 * (21474837 - 2) : Int) : ℚ) ∧
      w.current_weight = ((100 * (2 - 1) : Int) : ℚ) ∧
      w.fader_weight = ((100 * (21474837 - 1) : Int) : ℚ) ∧
      w.previous_weight + w.current_weight = w.fader_weight :=
  linear_weights sampleLn (sampleLn 21474837) 21474837 2 (by decide) (by decide) (by decide)

/-- C19, as stated, fails: with 21474838 steps, at step 2, a start value of 10 and a target
value of 0, the `int` product `100 * (fader_steps - 1)` does not fit and the integer computed
for the channel is -10, below both values; the display stores it as 246. -/
theorem linear_blend_leaves_the_range :
    ∃ w : Weights ℚ,
      stepWeights sampleLn (sampleLn 21474838) 21474838 2 LINEAR_DECAY = Except.ok (some w) ∧
      blend (some w) 0 10 = Except.ok (-10) ∧ ¬ (min (10 : Int) 0 ≤ -10) ∧
      toUInt8 (-10) = 246 ∧ ¬ ((246 : Int) ≤ max 10 0) :=
  ⟨_, stepWeights_linear_overflow sampleLn (sampleLn 21474838), blend_linear_overflow,
    by decide, by decide, by decide⟩

/-- C19, amended: for the linear curve, at least two and at most 21474837 steps (so that
`100 * (fader_steps - 1)` fits an `int`), a step in `1 .. fader_steps` and start and target
values in `0 .. 255`, the integer computed by `push` for a channel lies between the smaller
and the larger of the two values, hence in `0 .. 255`, and its conversion to the 8-bit channel
of the display leaves it unchanged. -/
theorem linear_blend_between_endpoints {K : Type} [LinearOrderedField K] [FloorRing K]
    (ln : K → K) (log_base : K) (fader_steps current_step target start : Int)
    (hsteps : 2 ≤ fader_steps) (hbound : fader_steps ≤ 21474837) (h1 : 1 ≤ current_step)
    (h2 : current_step ≤ fader_steps) (ht : 0 ≤ target ∧ target ≤ 255)
    (hs : 0 ≤ start ∧ start ≤ 255) :
    ∃ (w : Weights K) (v : Int),
      stepWeights ln log_base fader_steps current_step LINEAR_DECAY = Except.ok (some w) ∧
      blend (some w) target start = Except.ok v ∧
      min start target ≤ v ∧ v ≤ max start target ∧ 0 ≤ v ∧ v ≤ 255 ∧ toUInt8 v = v := by
  have hb := linear_quotient_bounds fader_steps current_step target start hsteps h1 h2
  have h0 := le_trans (le_min hs.1 ht.1) hb.1
  have h255 := le_trans hb.2 (max_le hs.2 ht.2)
  exact ⟨_, _, stepWeights_linear ln log_base fader_steps current_step h1 h2 hbound,
    blend_linear fader_steps current_step target start hsteps h1 h2 ht.1 hs.1, hb.1, hb.2, h0,
    h255, toUInt8_of_bounds _ h0 h255⟩

theorem linear_blend_between_endpoints_witness :
    ∃ (w : Weights ℚ) (v : Int),
      stepWeights sampleLn (sampleLn 10) 10 4 LINEAR_DECAY = Except.ok (some w) ∧
      blend (some w) 255 20 = Except.ok v ∧
      min 20 255 ≤ v ∧ v ≤ max 20 255 ∧ 0 ≤ v ∧ v ≤ 255 ∧ toUInt8 v = v :=
  linear_blend_between_endpoints sampleLn (sampleLn 10) 10 4 255 20 (by decide) (by decide)
    (by decide) (by decide) (by decide) (by decide)

end FastFader

/-! ## The logarithmic curve -/

namespace FastFader

/-- For a `log` that is zero at 1 and increasing on the positive integers, the two logarithmic
weights of every step are non-negative. -/
theorem logarithmic_weights_nonneg {K : Type} [LinearOrderedField K]
    (ln : K → K) (fader_steps i : Int) (hln : LogLike ln) (h : 2 ≤ fader_steps) (h1 : 1 ≤ i)
    (h2 : i ≤ fader_steps) :
    0 ≤ (weightsAt ln fader_steps i LOGARITHMIC_DECAY).previous_weight ∧
      0 ≤ (weightsAt ln fader_steps i LOGARITHMIC_DECAY).current_weight := by
  obtain ⟨hln1, hmono⟩ := hln
  rw [weightsAt_logarithmic]
  have hL := log_base_pos ln fader_steps hln1 hmono h
  have hle : ∀ a : Int, 1 ≤ a → a ≤ fader_steps →
      ln ((a : Int) : K) / ln ((fader_steps : Int) : K) ≤ 1 := by
    intro a ha1 ha2
    rw [div_le_one hL]
    rcases eq_or_lt_of_le ha2 with e | e
    · rw [e]
    · exact le_of_lt (hmono a fader_steps ha1 e)
  have a1 := hle (fader_steps - i + 1) (by omega) (by omega)
  have a2 := hle i h1 h2
  constructor
  · show (0 : K) ≤ 100 - 100 * (ln ((i : Int) : K) / ln ((fader_steps : Int) : K))
    linarith
  · show (0 : K) ≤
      100 - 100 * (ln ((fader_steps - i + 1 : Int) : K) / ln ((fader_steps : Int) : K))
    linarith

/-- For a `log` that is zero at 1 and increasing on the positive integers, the logarithmic
weights at step 1 are 100 for the start frame and 0 for the target frame. -/
theorem logarithmic_weights_first {K : Type} [LinearOrderedField K]
    (ln : K → K) (fader_steps : Int) (hln : LogLike ln) (h : 2 ≤ fader_steps) :
    (weightsAt ln fader_steps 1 LOGARITHMIC_DECAY).previous_weight = 100 ∧
      (weightsAt ln fader_steps 1 LOGARITHMIC_DECAY).current_weight = 0 := by
  obtain ⟨hln1, hmono⟩ := hln
  have hL := log_base_pos ln fader_steps hln1 hmono h
  rw [weightsAt_logarithmic]
  have e1 : ln (((1 : Int) : Int) : K) = 0 := by
    rw [Int.cast_one, hln1]
  have e0 : fader_steps - 1 + 1 = fader_steps := by omega
  have e2 : ln ((fader_steps - 1 + 1 : Int) : K) / ln ((fader_steps : Int) : K) = 1 := by
    rw [e0]
    exact div_self (ne_of_gt hL)
  constructor
  · show (100 : K) - 100 * (ln (((1 : Int) : Int) : K) / ln ((fader_steps : Int) : K)) = 100
    rw [e1, zero_div]
    ring
  · show (100 : K) -
      100 * (ln ((fader_steps - 1 + 1 : Int) : K) / ln ((fader_steps : Int) : K)) = 0
    rw [e2]
    ring

/-- For a `log` that is zero at 1 and increasing on the positive integers, the logarithmic
weights at the last step are 0 for the start frame and 100 for the target frame. -/
theorem logarithmic_weights_last {K : Type} [LinearOrderedField K]
    (ln : K → K) (fader_steps : Int) (hln : LogLike ln) (h : 2 ≤ fader_steps) :
    (weightsAt ln fader_steps fader_steps LOGARITHMIC_DECAY).previous_weight = 0 ∧
      (weightsAt ln fader_steps fader_steps LOGARITHMIC_DECAY).current_weight = 100 := by
  obtain ⟨hln1, hmono⟩ := hln
  have hL := log_base_pos ln fader_steps hln1 hmono h
  rw [weightsAt_logarithmic]
  have e1 : ln ((fader_steps - fader_steps + 1 : Int) : K) = 0 := by
    rw [sub_self, zero_add, Int.cast_one, hln1]
  have e2 : ln ((fader_steps : Int) : K) / ln ((fader_steps : Int) : K) = 1 :=
    div_self (ne_of_gt hL)
  constructor
  · show (100 : K) - 100 * (ln ((fader_steps : Int) : K) / ln ((fader_steps : Int) : K)) = 0
    rw [e2]
    ring
  · show (100 : K) -
      100 * (ln ((fader_steps - fader_steps + 1 : Int) : K) / ln ((fader_steps : Int) : K)) = 100
    rw [e1, zero_div]
    ring

/-- With a non-zero `log_base` the logarithmic block of `push` computes the weights of the
formulas. -/
theorem stepWeights_logarithmic {K : Type} [LinearOrderedField K]
    (ln : K → K) (fader_steps current_step : Int) (hL : ln ((fader_steps : Int) : K) ≠ 0) :
    stepWeights ln (ln ((fader_steps : Int) : K)) fader_steps current_step LOGARITHMIC_DECAY =
      Except.ok (some (weightsAt ln fader_steps current_step LOGARITHMIC_DECAY)) :=
  stepWeights_eq ln fader_steps current_step LOGARITHMIC_DECAY (Or.inr (Or.inr rfl))
    (fun _ => hL)

theorem real_log_base_ne_zero (fader_steps : Int) (h : 2 ≤ fader_steps) :
    Real.log ((fader_steps : Int) : ℝ) ≠ 0 :=
  ne_of_gt (log_base_pos Real.log fader_steps real_log_LogLike.1 real_log_LogLike.2 h)

/-- C15: over the reals, with the natural logarithm, the logarithmic block of `push` computes
`current_weight = 100 - 100 * ln(fader_steps - current_step + 1) / ln(fader_steps)`,
`previous_weight = 100 - 100 * ln(current_step) / ln(fader_steps)` and their sum as
`fader_weight`; for at least two steps, step 1 gives `previous_weight = 100` and
`current_weight = 0`, and the last step gives `previous_weight = 0` and
`current_weight = 100`. -/
theorem logarithmic_weights_at_the_ends (fader_steps : Int) (hsteps : 2 ≤ fader_steps) :
    (∀ current_step : Int, ∃ w : Weights ℝ,
        stepWeights Real.log (Real.log ((fader_steps : Int) : ℝ)) fader_steps current_step
          LOGARITHMIC_DECAY = Except.ok (some w) ∧
        w.current_weight =
          100 - 100 * Real.log ((fader_steps - current_step + 1 : Int) : ℝ) /
            Real.log ((fader_steps : Int) : ℝ) ∧
        w.previous_weight =
          100 - 100 * Real.log ((current_step : Int) : ℝ) / Real.log ((fader_steps : Int) : ℝ) ∧
        w.fader_weight = w.current_weight + w.previous_weight) ∧
      (∃ w : Weights ℝ,
        stepWeights Real.log (Real.log ((fader_steps : Int) : ℝ)) fader_steps 1
          LOGARITHMIC_DECAY = Except.ok (some w) ∧
        w.previous_weight = 100 ∧ w.current_weight = 0) ∧
      (∃ w : Weights ℝ,
        stepWeights Real.log (Real.log ((fader_steps : Int) : ℝ)) fader_steps fader_steps
          LOGARITHMIC_DECAY = Except.ok (some w) ∧
        w.previous_weight = 0 ∧ w.current_weight = 100) := by
  have hL := real_log_base_ne_zero fader_steps hsteps
  refine ⟨?_, ?_, ?_⟩
  · intro current_step
    refine ⟨_, stepWeights_logarithmic Real.log fader_steps current_step hL, ?_, ?_, ?_⟩
    · rw [weightsAt_logarithmic, mul_div_assoc]
    · rw [weightsAt_logarithmic, mul_div_assoc]
    · rw [weightsAt_logarithmic]
  · exact ⟨_, stepWeights_logarithmic Real.log fader_steps 1 hL,
      logarithmic_weights_first Real.log fader_steps real_log_LogLike hsteps⟩
  · exact ⟨_, stepWeights_logarithmic Real.log fader_steps fader_steps hL,
      logarithmic_weights_last Real.log fader_steps real_log_LogLike hsteps⟩

theorem logarithmic_weights_at_the_ends_witness :
    (∃ w : Weights ℝ,
        stepWeights Real.log (Real.log ((10 : Int) : ℝ)) 10 1
          LOGARITHMIC_DECAY = Except.ok (some w) ∧
        w.previous_weight = 100 ∧ w.current_weight = 0) ∧
      (∃ w : Weights ℝ,
        stepWeights Real.log (Real.log ((10 : Int) : ℝ)) 10 10
          LOGARITHMIC_DECAY = Except.ok (some w) ∧
        w.previous_weight = 0 ∧ w.current_weight = 100) :=
  (logarithmic_weights_at_the_ends 10 (by decide)).2

theorem blend_of_zero_fader_weight {K : Type} [LinearOrderedField K] [FloorRing K]
    (w : Weights K) (target start : Int) (hw : w.fader_weight = 0) :
    blend (some w) target start = Except.error Fault.divByZero := by
  unfold blend fdiv
  simp only [hw, if_true]

/-- C16, as stated, fails for the linear curve: with 21474838 steps the `int` product
`100 * (fader_steps - 1)` does not fit and `fader_weight` is negative; with 1073741825 steps
the product is 0 in an `int`, `fader_weight` is zero and the blend divides by zero. -/
theorem linear_fader_weight_not_positive :
    (∃ w : Weights ℝ,
      stepWeights Real.log (Real.log ((21474838 : Int) : ℝ)) 21474838 2 LINEAR_DECAY =
        Except.ok (some w) ∧ w.fader_weight < 0) ∧
    ∃ w : Weights ℝ,
      stepWeights Real.log (Real.log ((1073741825 : Int) : ℝ)) 1073741825 1 LINEAR_DECAY =
        Except.ok (some w) ∧ w.fader_weight = 0 ∧
      blend (some w) 0 10 = Except.error Fault.divByZero := by
  have hz : ((wrapInt (100 * (1073741825 - 1)) : Int) : ℝ) = 0 := by
    rw [show wrapInt (100 * (1073741825 - 1)) = 0 from by decide, Int.cast_zero]
  constructor
  · refine ⟨_, stepWeights_linear_overflow Real.log _, ?_⟩
    show ((-2147483596 : Int) : ℝ) < 0
    norm_num
  · exact ⟨_, stepWeights_linear_wrapped Real.log _ 1073741825 1, hz,
      blend_of_zero_fader_weight _ 0 10 hz⟩

/-- C16, amended: over the reals, with the natural logarithm, for the linear curve with at
most 21474837 steps (so that `100 * (fader_steps - 1)` fits an `int`) and for the logarithmic
curve, at least two steps and a step in `1 .. fader_steps`, the weights computed by `push`
satisfy `previous_weight ≥ 0`, `current_weight ≥ 0` and `fader_weight > 0`, and the blend of
any two channel values is computed without a zero divisor. -/
theorem blend_division_is_defined (fader_steps current_step decay_type : Int)
    (hsteps : 2 ≤ fader_steps) (h1 : 1 ≤ current_step) (h2 : current_step ≤ fader_steps)
    (hd : decay_type = LINEAR_DECAY ∨ decay_type = LOGARITHMIC_DECAY)
    (hbound : decay_type = LINEAR_DECAY → fader_steps ≤ 21474837) :
    ∃ w : Weights ℝ,
      stepWeights Real.log (Real.log ((fader_steps : Int) : ℝ)) fader_steps current_step
        decay_type = Except.ok (some w) ∧
      0 ≤ w.previous_weight ∧ 0 ≤ w.current_weight ∧ 0 < w.fader_weight ∧
      ∀ target start : Int, ∃ v : Int, blend (some w) target start = Except.ok v := by
  rcases hd with h | h
  · have hb := hbound h
    subst h
    have hfw : (0 : ℝ) < ((100 * (fader_steps - 1) : Int) : ℝ) := by
      exact_mod_cast (by omega : (0 : Int) < 100 * (fader_steps - 1))
    refine ⟨_, stepWeights_linear Real.log _ fader_steps current_step h1 h2 hb, ?_, ?_, hfw,
      ?_⟩
    · show (0 : ℝ) ≤ ((100 * (fader_steps - current_step) : Int) : ℝ)
      exact_mod_cast (by omega : (0 : Int) ≤ 100 * (fader_steps - current_step))
    · show (0 : ℝ) ≤ ((100 * (current_step - 1) : Int) : ℝ)
      exact_mod_cast (by omega : (0 : Int) ≤ 100 * (current_step - 1))
    · intro target start
      exact ⟨_, blend_eq _ target start (ne_of_gt hfw)⟩
  · subst h
    have hL := real_log_base_ne_zero fader_steps hsteps
    have hnn := logarithmic_weights_nonneg Real.log fader_steps current_step real_log_LogLike
      hsteps h1 h2
    have hfw := logarithmic_fader_weight_pos Real.log fader_steps current_step
      real_log_LogLike.1 real_log_LogLike.2 hsteps h1 h2
    refine ⟨_, stepWeights_logarithmic Real.log fader_steps current_step hL, hnn.1, hnn.2, hfw,
      ?_⟩
    intro target start
    exact ⟨_, blend_eq _ target start (ne_of_gt hfw)⟩

theorem blend_division_is_defined_witness :
    (∃ w : Weights ℝ,
      stepWeights Real.log (Real.log ((10 : Int) : ℝ)) 10 4
        LOGARITHMIC_DECAY = Except.ok (some w) ∧
      0 ≤ w.previous_weight ∧ 0 ≤ w.current_weight ∧ 0 < w.fader_weight ∧
      ∀ target start : Int, ∃ v : Int, blend (some w) target start = Except.ok v) ∧
    ∃ w : Weights ℝ,
      stepWeights Real.log (Real.log ((21474837 : Int) : ℝ)) 21474837 4
        LINEAR_DECAY = Except.ok (some w) ∧
      0 ≤ w.previous_weight ∧ 0 ≤ w.current_weight ∧ 0 < w.fader_weight ∧
      ∀ target start : Int, ∃ v : Int, blend (some w) target start = Except.ok v :=
  ⟨blend_division_is_defined 10 4 LOGARITHMIC_DECAY (by decide) (by decide) (by decide)
      (Or.inr rfl) (fun h => absurd h (by decide)),
    blend_division_is_defined 21474837 4 LINEAR_DECAY (by decide) (by decide) (by decide)
      (Or.inl rfl) (fun _ => by decide)⟩

end FastFader

/-! ## What the buffer operations touch -/

namespace FastFader

theorem eq_of_fields (s t : FastFader) (hN : s.NumLEDs = t.NumLEDs)
    (hP : s.PixelBuffer = t.PixelBuffer) (hL : s.LEDs = t.LEDs) : s = t := by
  cases s
  cases t
  simp only [FastFader.mk.injEq]
  exact ⟨hN, hP, hL⟩

theorem clear_LEDs (s : FastFader) : (clear s).LEDs = s.LEDs :=
  forLoop_invariant _ (fun t => t.LEDs = s.LEDs)
    (fun _ t ht => by simpa only [forLoop_three] using ht) _ _ s rfl

/-- The display memory after `bind`, cell by cell. -/
theorem bind_LEDs (pixel_buffer leds : Int → Int → Int) (num_leds : Int) (j c : Int) :
    (bind pixel_buffer leds num_leds).LEDs j c =
      if 0 ≤ j ∧ j < num_leds ∧ (c = 0 ∨ c = 1 ∨ c = 2) then 0 else leds j c := by
  have key := forLoop_pointwise
    (fun i (t : FastFader) =>
      { t with
        LEDs := storeCRGB t.LEDs i 0 0 0
        PixelBuffer := store (store (store t.PixelBuffer i 0 0) i 1 0) i 2 0 })
    (fun t => t.LEDs) (fun _ _ => 0) (fun _ => True) (num_leds.toNat : Int)
    (fun _ _ _ => trivial)
    (fun i t j c _ _ _ => by
      show storeCRGB t.LEDs i 0 0 0 j c = if j = i ∧ (c = 0 ∨ c = 1 ∨ c = 2) then 0 else t.LEDs j c
      rw [storeCRGB_apply]
      split_ifs <;> rfl)
    num_leds.toNat (le_refl _) { NumLEDs := num_leds, PixelBuffer := pixel_buffer, LEDs := leds }
    trivial j c
  unfold bind
  rw [key]
  by_cases h : 0 ≤ j ∧ j < num_leds ∧ (c = 0 ∨ c = 1 ∨ c = 2)
  · rw [if_pos h, if_pos ⟨h.1, by omega, h.2.2⟩]
  · have h2 : ¬ (0 ≤ j ∧ j < (num_leds.toNat : Int) ∧ (c = 0 ∨ c = 1 ∨ c = 2)) := by
      rintro ⟨a, b, d⟩
      exact h ⟨a, by omega, d⟩
    rw [if_neg h, if_neg h2]

/-- The overload `set_pixel(pos, value)` does what `set_pixel(pos, value, -1)` does. -/
theorem set_pixel_all_eq_set_pixel (s : FastFader) (pos value : Int) :
    set_pixel_all s pos value = set_pixel s pos value (-1) := by
  apply eq_of_fields
  · rw [set_pixel_all_eq, set_pixel_rgb_NumLEDs, set_pixel_NumLEDs]
  · funext j k
    rw [set_pixel_all_eq, set_pixel_rgb_PixelBuffer, set_pixel_PixelBuffer]
    have h : ((-1 : Int) < 0 ∨ (-1 : Int) > 2) := Or.inl (by decide)
    simp only [h, if_true]
  · rw [set_pixel_all_eq, set_pixel_rgb_LEDs, set_pixel_LEDs]

theorem clear_clear (s : FastFader) : clear (clear s) = clear s := by
  apply eq_of_fields
  · rw [clear_NumLEDs]
  · funext j c
    rw [clear_PixelBuffer, clear_NumLEDs, clear_PixelBuffer]
    split_ifs <;> rfl
  · rw [clear_LEDs]

/-- C17: for an in-range position, `set_pixel(pos, v, channel)` with `channel` among 0, 1, 2
stores the clipped value in that channel of pixel `pos` and changes no other cell; with
`channel < 0` or `channel > 2` it stores the clipped value in the three channels of pixel
`pos` and changes no other pixel; `set_pixel(pos, v)` is `set_pixel(pos, v, -1)` and
`set_pixel(pos)` is `set_pixel(pos, 255, -1)`. -/
theorem set_pixel_channel_selection (s : FastFader) (pos v : Int) (h0 : 0 ≤ pos)
    (h1 : pos < s.NumLEDs) :
    (∀ channel : Int, (channel = 0 ∨ channel = 1 ∨ channel = 2) →
        (set_pixel s pos v channel).PixelBuffer pos channel = min 255 (max 0 v) ∧
        ∀ j k : Int, ¬ (j = pos ∧ k = channel) →
          (set_pixel s pos v channel).PixelBuffer j k = s.PixelBuffer j k) ∧
      (∀ channel : Int, (channel < 0 ∨ channel > 2) →
        (∀ k : Int, (k = 0 ∨ k = 1 ∨ k = 2) →
          (set_pixel s pos v channel).PixelBuffer pos k = min 255 (max 0 v)) ∧
        ∀ j k : Int, j ≠ pos →
          (set_pixel s pos v channel).PixelBuffer j k = s.PixelBuffer j k) ∧
      set_pixel_all s pos v = set_pixel s pos v (-1) ∧
      set_pixel_default s pos = set_pixel s pos 255 (-1) := by
  have hp : clip_pos s pos = pos := clip_pos_of_le s pos h0 (by omega)
  refine ⟨?_, ?_, set_pixel_all_eq_set_pixel s pos v, rfl⟩
  · intro channel hc
    have hch : ¬ (channel < 0 ∨ channel > 2) := by omega
    constructor
    · rw [set_pixel_PixelBuffer, hp, clip_value_eq]
      simp only [hch, if_false, and_self, if_true]
    · intro j k hjk
      rw [set_pixel_PixelBuffer, hp]
      simp only [hch, if_false, hjk]
  · intro channel hc
    constructor
    · intro k hk
      rw [set_pixel_PixelBuffer, hp, clip_value_eq]
      simp only [hc, if_true, hk, and_self]
    · intro j k hj
      rw [set_pixel_PixelBuffer, hp]
      simp only [hj, false_and, if_false]

theorem set_pixel_channel_selection_witness :
    (set_pixel threePixels 1 300 2).PixelBuffer 1 2 = min 255 (max 0 300) ∧
      (set_pixel threePixels 1 300 2).PixelBuffer 1 0 = threePixels.PixelBuffer 1 0 ∧
      (set_pixel threePixels 1 300 5).PixelBuffer 1 0 = min 255 (max 0 300) ∧
      (set_pixel threePixels 1 300 5).PixelBuffer 2 0 = threePixels.PixelBuffer 2 0 := by
  have h := set_pixel_channel_selection threePixels 1 300 (by decide) (by decide)
  exact ⟨(h.1 2 (by decide)).1, (h.1 2 (by decide)).2 1 0 (by decide),
    (h.2.1 5 (by decide)).1 0 (by decide), (h.2.1 5 (by decide)).2 2 0 (by decide)⟩

/-- C18: after `clear` every channel of every pixel at indices `0 .. NumLEDs - 1` is 0, and
clearing twice is clearing once; after `bind` both `PixelBuffer` and `LEDs` are zero at
indices `0 .. NumLEDs - 1`. -/
theorem clear_and_bind_zero_the_frame (s : FastFader) (pixel_buffer leds : Int → Int → Int)
    (num_leds : Int) :
    (∀ i c : Int, 0 ≤ i → i < s.NumLEDs → (c = 0 ∨ c = 1 ∨ c = 2) →
        (clear s).PixelBuffer i c = 0) ∧
      clear (clear s) = clear s ∧
      (bind pixel_buffer leds num_leds).NumLEDs = num_leds ∧
      ∀ i c : Int, 0 ≤ i → i < num_leds → (c = 0 ∨ c = 1 ∨ c = 2) →
        (bind pixel_buffer leds num_leds).PixelBuffer i c = 0 ∧
          (bind pixel_buffer leds num_leds).LEDs i c = 0 := by
  refine ⟨?_, clear_clear s, bind_NumLEDs pixel_buffer leds num_leds, ?_⟩
  · intro i c h0 h1 hc
    rw [clear_PixelBuffer, if_pos ⟨h0, h1, hc⟩]
  · intro i c h0 h1 hc
    rw [bind_PixelBuffer, bind_LEDs, if_pos ⟨h0, h1, hc⟩, if_pos ⟨h0, h1, hc⟩]
    exact ⟨rfl, rfl⟩

theorem clear_and_bind_zero_the_frame_witness :
    (clear sampleFader).PixelBuffer 2 0 = 0 ∧
      (bind (fun _ _ => 999) (fun _ _ => 77) 3).PixelBuffer 2 1 = 0 ∧
      (bind (fun _ _ => 999) (fun _ _ => 77) 3).LEDs 2 1 = 0 := by
  have h := clear_and_bind_zero_the_frame sampleFader (fun _ _ => 999) (fun _ _ => 77) 3
  exact ⟨h.1 2 0 (by decide) (by decide) (by decide),
    (h.2.2.2 2 1 (by decide) (by decide) (by decide)).1,
    (h.2.2.2 2 1 (by decide) (by decide) (by decide)).2⟩

end FastFader

/-! ## What `push` touches -/

namespace FastFader

theorem forLoopM_error {σ : Type} (body : Int → σ → Except Fault σ)
    (hbody : ∀ i s e, body i s = Except.error e → e = Fault.divByZero) (n : Nat) (i : Int)
    (s : σ) (e : Fault) (h : forLoopM body n i s = Except.error e) : e = Fault.divByZero := by
  induction n generalizing i s with
  | zero => simp [forLoopM] at h
  | succ n ih =>
    rw [forLoopM] at h
    cases hb : body i s with
    | error e2 =>
      rw [hb] at h
      injection h with h
      rw [← h]
      exact hbody i s e2 hb
    | ok s1 =>
      rw [hb] at h
      exact ih (i + 1) s1 h

theorem fdiv_error {K : Type} [LinearOrderedField K]
    (a b : K) (e : Fault) (h : fdiv a b = Except.error e) : e = Fault.divByZero := by
  unfold fdiv at h
  split_ifs at h
  · injection h with h
    exact h.symm

theorem idiv_error (a b : Int) (e : Fault) (h : idiv a b = Except.error e) :
    e = Fault.divByZero := by
  unfold idiv at h
  split_ifs at h
  · injection h with h
    exact h.symm
  · injection h with h
    exact h.symm

/-- The block of `push` for `NO_DECAY` sets the weights 0, 1, 1. -/
theorem stepWeights_noDecay {K : Type} [LinearOrderedField K]
    (ln : K → K) (log_base : K) (fader_steps current_step : Int) :
    stepWeights ln log_base fader_steps current_step NO_DECAY =
      Except.ok (some { previous_weight := 0, current_weight := 1, fader_weight := 1 }) := by
  unfold stepWeights
  simp [NO_DECAY, LINEAR_DECAY, LOGARITHMIC_DECAY]

/-- The weights of a resolved curve are either found or lost to a zero divisor. -/
theorem stepWeights_resolved {K : Type} [LinearOrderedField K]
    (ln : K → K) (log_base : K) (fader_steps current_step d : Int) :
    stepWeights ln log_base fader_steps current_step (resolveDecay d) =
        Except.error Fault.divByZero ∨
      ∃ w : Weights K,
        stepWeights ln log_base fader_steps current_step (resolveDecay d) =
          Except.ok (some w) := by
  rcases resolveDecay_cases d with h | h | h
  · rw [h]
    right
    exact ⟨_, stepWeights_noDecay ln log_base fader_steps current_step⟩
  · rw [h]
    right
    exact ⟨_, stepWeights_linear_wrapped ln log_base fader_steps current_step⟩
  · rw [h]
    by_cases hL : log_base = 0
    · left
      unfold stepWeights fdiv
      simp [NO_DECAY, LINEAR_DECAY, LOGARITHMIC_DECAY, hL]
    · right
      refine ⟨{ previous_weight := 100 - (100 * (ln ((current_step : Int) : K) / log_base))
                current_weight :=
                  100 - (100 * (ln ((fader_steps - current_step + 1 : Int) : K) / log_base))
                fader_weight :=
                  (100 - (100 * (ln ((fader_steps - current_step + 1 : Int) : K) / log_base))) +
                    (100 - (100 * (ln ((current_step : Int) : K) / log_base))) }, ?_⟩
      unfold stepWeights
      simp only [fdiv_of_ne _ _ hL]
      simp [NO_DECAY, LINEAR_DECAY, LOGARITHMIC_DECAY]

theorem blend_error {K : Type} [LinearOrderedField K] [FloorRing K]
    (w : Weights K) (target start : Int) (e : Fault)
    (h : blend (some w) target start = Except.error e) : e = Fault.divByZero := by
  unfold blend at h
  by_cases hw : w.fader_weight = 0
  · simp only [fdiv, hw, if_true] at h
    injection h with h
    exact h.symm
  · simp only [fdiv_of_ne _ _ hw] at h
    exact absurd h (by simp)

theorem sendStep_error {K : Type} [LinearOrderedField K] [FloorRing K]
    (s : FastFader) (cache : Int → Int → Int) (w : Weights K) (leds : Int → Int → Int)
    (e : Fault) (h : sendStep s cache (some w) leds = Except.error e) :
    e = Fault.divByZero := by
  unfold sendStep at h
  refine forLoopM_error _ ?_ _ _ _ e h
  intro i t e2 hb
  beta_reduce at hb
  cases h0 : blend (some w) (s.PixelBuffer i 0) (cache i 0) with
  | error e3 =>
    rw [h0] at hb
    injection hb with hb
    rw [← hb]
    exact blend_error w _ _ e3 h0
  | ok r =>
    rw [h0] at hb
    cases h1 : blend (some w) (s.PixelBuffer i 1) (cache i 1) with
    | error e3 =>
      rw [h1] at hb
      injection hb with hb
      rw [← hb]
      exact blend_error w _ _ e3 h1
    | ok g =>
      rw [h1] at hb
      cases h2 : blend (some w) (s.PixelBuffer i 2) (cache i 2) with
      | error e3 =>
        rw [h2] at hb
        injection hb with hb
        rw [← hb]
        exact blend_error w _ _ e3 h2
      | ok b =>
        rw [h2] at hb
        exact absurd hb (by simp)

theorem fadeStep_error {K : Type} [LinearOrderedField K] [FloorRing K]
    (ln : K → K) (s : FastFader) (cache : Int → Int → Int) (step_delay fader_steps : Int)
    (log_base : K) (current_step : Int) (st : FadeState) (e : Fault)
    (h : fadeStep ln s cache step_delay fader_steps log_base current_step st = Except.error e) :
    e = Fault.divByZero := by
  unfold fadeStep at h
  rcases stepWeights_resolved ln log_base fader_steps current_step st.decay_type with hw | ⟨w, hw⟩
  · simp only [hw] at h
    injection h with h
    exact h.symm
  · simp only [hw] at h
    cases hs : sendStep s cache (some w) st.LEDs with
    | error e2 =>
      rw [hs] at h
      injection h with h
      rw [← h]
      exact sendStep_error s cache w st.LEDs e2 hs
    | ok leds =>
      rw [hs] at h
      exact absurd h (by simp)

/-- The only fault `push` can run into is a zero divisor. -/
theorem push_error {K : Type} [LinearOrderedField K] [FloorRing K]
    (ln : K → K) (s : FastFader) (fader_delay fader_steps decay_type : Int) (e : Fault)
    (h : push ln s fader_delay fader_steps decay_type = Except.error e) :
    e = Fault.divByZero := by
  unfold push at h
  cases hi : idiv fader_delay fader_steps with
  | error e2 =>
    rw [hi] at h
    injection h with h
    rw [← h]
    exact idiv_error _ _ e2 hi
  | ok step_delay =>
    rw [hi] at h
    cases hl : forLoopM
        (fadeStep ln s (snapshot s) step_delay fader_steps (ln ((fader_steps : Int) : K)))
        fader_steps.toNat 1 { decay_type := decay_type, LEDs := s.LEDs, trace := [] } with
    | error e2 =>
      simp only [hl] at h
      injection h with h
      rw [← h]
      exact forLoopM_error _
        (fun i st e3 he => fadeStep_error ln s _ step_delay fader_steps _ i st e3 he) _ _ _ e2 hl
    | ok st =>
      simp only [hl] at h
      exact absurd h (by simp)

/-- Whatever `push` returns differs from the fader it was called on in `LEDs` only. -/
theorem push_ok_fields {K : Type} [LinearOrderedField K] [FloorRing K]
    (ln : K → K) (s : FastFader) (fader_delay fader_steps decay_type : Int) (s2 : FastFader)
    (evs : List Event)
    (h : push ln s fader_delay fader_steps decay_type = Except.ok (s2, evs)) :
    s2.NumLEDs = s.NumLEDs ∧ s2.PixelBuffer = s.PixelBuffer := by
  unfold push at h
  cases hi : idiv fader_delay fader_steps with
  | error e2 =>
    rw [hi] at h
    exact absurd h (by simp)
  | ok step_delay =>
    rw [hi] at h
    cases hl : forLoopM
        (fadeStep ln s (snapshot s) step_delay fader_steps (ln ((fader_steps : Int) : K)))
        fader_steps.toNat 1 { decay_type := decay_type, LEDs := s.LEDs, trace := [] } with
    | error e2 =>
      simp only [hl] at h
      exact absurd h (by simp)
    | ok st =>
      simp only [hl] at h
      injection h with h
      injection h with h1 h2
      rw [← h1]
      exact ⟨rfl, rfl⟩

/-- C20: for every delay, step count and curve value, `push` either stops at a division that
cannot be carried out (`Fault.divByZero`) or returns; what it returns has the `NumLEDs` and
the `PixelBuffer` it was called with, so `get_pixel` reads the same target frame after `push`
as before. -/
theorem push_only_borrows_the_buffer {K : Type} [LinearOrderedField K] [FloorRing K]
    (ln : K → K) (s : FastFader) (fader_delay fader_steps decay_type : Int) :
    (push ln s fader_delay fader_steps decay_type = Except.error Fault.divByZero ∨
        ∃ s2 evs, push ln s fader_delay fader_steps decay_type = Except.ok (s2, evs)) ∧
      ∀ s2 evs, push ln s fader_delay fader_steps decay_type = Except.ok (s2, evs) →
        s2.NumLEDs = s.NumLEDs ∧ s2.PixelBuffer = s.PixelBuffer ∧
          ∀ pos : Int, get_pixel s2 pos = get_pixel s pos := by
  constructor
  · cases h : push ln s fader_delay fader_steps decay_type with
    | error e =>
      left
      rw [push_error ln s fader_delay fader_steps decay_type e h]
    | ok r =>
      right
      exact ⟨r.1, r.2, rfl⟩
  · intro s2 evs h
    have hf := push_ok_fields ln s fader_delay fader_steps decay_type s2 evs h
    refine ⟨hf.1, hf.2, ?_⟩
    intro pos
    unfold get_pixel
    rw [hf.2]

theorem push_only_borrows_the_buffer_witness :
    ∃ s2 evs, push sampleLn sampleFader 100 10 LINEAR_DECAY = Except.ok (s2, evs) ∧
      s2.NumLEDs = sampleFader.NumLEDs ∧ s2.PixelBuffer = sampleFader.PixelBuffer ∧
      ∀ pos : Int, get_pixel s2 pos = get_pixel sampleFader pos := by
  have hpush := push_eq sampleLn sampleFader 100 10 LINEAR_DECAY (by decide)
    (fun h => absurd h (by decide))
    (fun i _ _ => linear_fader_weight_ne_zero sampleLn 10 i (by decide) (by decide))
  exact ⟨_, _, hpush,
    (push_only_borrows_the_buffer sampleLn sampleFader 100 10 LINEAR_DECAY).2 _ _ hpush⟩

end FastFader

/-! ## The logarithmic fade in exact arithmetic -/

namespace FastFader

theorem toInt_mono_of_nonneg {K : Type} [LinearOrderedField K] [FloorRing K]
    (x y : K) (hx : 0 ≤ x) (hxy : x ≤ y) : toInt x ≤ toInt y := by
  unfold toInt
  rw [if_pos hx, if_pos (le_trans hx hxy)]
  exact Int.floor_mono hxy

/-- When the weight of the target grows and the weight of the start shrinks, the truncated
blend moves from the start value toward the target value. -/
theorem blend_quotient_mono {K : Type} [LinearOrderedField K] [FloorRing K]
    (cw pw cw2 pw2 : K) (lo hi : Int) (hcw : 0 ≤ cw) (hcw2 : cw ≤ cw2) (hpw2 : 0 ≤ pw2)
    (hpw : pw2 ≤ pw) (hf : 0 < cw + pw) (hf2 : 0 < cw2 + pw2) (hlo : 0 ≤ lo) (hle : lo ≤ hi) :
    toInt ((((hi : Int) : K) * cw + ((lo : Int) : K) * pw) / (cw + pw)) ≤
        toInt ((((hi : Int) : K) * cw2 + ((lo : Int) : K) * pw2) / (cw2 + pw2)) ∧
      toInt ((((lo : Int) : K) * cw2 + ((hi : Int) : K) * pw2) / (cw2 + pw2)) ≤
        toInt ((((lo : Int) : K) * cw + ((hi : Int) : K) * pw) / (cw + pw)) := by
  have hloK : (0 : K) ≤ ((lo : Int) : K) := by exact_mod_cast hlo
  have hleK : ((lo : Int) : K) ≤ ((hi : Int) : K) := by exact_mod_cast hle
  have hhiK : (0 : K) ≤ ((hi : Int) : K) := le_trans hloK hleK
  have hpw0 : (0 : K) ≤ pw := le_trans hpw2 hpw
  have hcw20 : (0 : K) ≤ cw2 := le_trans hcw hcw2
  have hx : cw * pw2 ≤ cw2 * pw := mul_le_mul hcw2 hpw hpw2 hcw20
  have hprod : 0 ≤ (((hi : Int) : K) - ((lo : Int) : K)) * (cw2 * pw - cw * pw2) :=
    mul_nonneg (sub_nonneg.mpr hleK) (sub_nonneg.mpr hx)
  constructor
  · apply toInt_mono_of_nonneg
    · exact div_nonneg (add_nonneg (mul_nonneg hhiK hcw) (mul_nonneg hloK hpw0)) (le_of_lt hf)
    · rw [div_le_div_iff₀ hf hf2]
      nlinarith [hprod]
  · apply toInt_mono_of_nonneg
    · exact div_nonneg (add_nonneg (mul_nonneg hloK hcw20) (mul_nonneg hhiK hpw2))
        (le_of_lt hf2)
    · rw [div_le_div_iff₀ hf2 hf]
      nlinarith [hprod]

/-- In exact arithmetic (no rounding of the intermediate `double` operations), with a `log`
that is zero at 1 and increasing on the positive integers, the logarithmic blend of a channel
moves monotonically from one step to the next: upward when the start value is at most the
target value, downward when it is at least the target value. -/
theorem logarithmic_blend_monotone_exact {K : Type} [LinearOrderedField K] [FloorRing K]
    (ln : K → K) (hln : LogLike ln) (fader_steps i lo hi : Int) (hsteps : 2 ≤ fader_steps)
    (h1 : 1 ≤ i) (h2 : i < fader_steps) (hlo : 0 ≤ lo) (hle : lo ≤ hi) :
    blendValue (weightsAt ln fader_steps i LOGARITHMIC_DECAY) hi lo ≤
        blendValue (weightsAt ln fader_steps (i + 1) LOGARITHMIC_DECAY) hi lo ∧
      blendValue (weightsAt ln fader_steps (i + 1) LOGARITHMIC_DECAY) lo hi ≤
        blendValue (weightsAt ln fader_steps i LOGARITHMIC_DECAY) lo hi := by
  have hL := log_base_pos ln fader_steps hln.1 hln.2 hsteps
  have hnn := logarithmic_weights_nonneg ln fader_steps i hln hsteps h1 (by omega)
  have hnn2 := logarithmic_weights_nonneg ln fader_steps (i + 1) hln hsteps (by omega) (by omega)
  have hf := logarithmic_fader_weight_pos ln fader_steps i hln.1 hln.2 hsteps h1 (by omega)
  have hf2 := logarithmic_fader_weight_pos ln fader_steps (i + 1) hln.1 hln.2 hsteps (by omega)
    (by omega)
  have hc : ln ((fader_steps - (i + 1) + 1 : Int) : K) / ln ((fader_steps : Int) : K) ≤
      ln ((fader_steps - i + 1 : Int) : K) / ln ((fader_steps : Int) : K) :=
    div_le_div_of_nonneg_right
      (le_of_lt (hln.2 (fader_steps - (i + 1) + 1) (fader_steps - i + 1) (by omega) (by omega)))
      (le_of_lt hL)
  have hp : ln ((i : Int) : K) / ln ((fader_steps : Int) : K) ≤
      ln ((i + 1 : Int) : K) / ln ((fader_steps : Int) : K) :=
    div_le_div_of_nonneg_right (le_of_lt (hln.2 i (i + 1) h1 (by omega))) (le_of_lt hL)
  rw [weightsAt_logarithmic] at hnn hf
  rw [weightsAt_logarithmic] at hnn2 hf2
  rw [weightsAt_logarithmic, weightsAt_logarithmic]
  unfold blendValue
  exact blend_quotient_mono _ _ _ _ lo hi hnn.2
    (by
      show (100 : K) - 100 * (ln ((fader_steps - i + 1 : Int) : K) / ln ((fader_steps : Int) : K))
        ≤ 100 - 100 * (ln ((fader_steps - (i + 1) + 1 : Int) : K) / ln ((fader_steps : Int) : K))
      linarith)
    hnn2.1
    (by
      show (100 : K) - 100 * (ln ((i + 1 : Int) : K) / ln ((fader_steps : Int) : K))
        ≤ 100 - 100 * (ln ((i : Int) : K) / ln ((fader_steps : Int) : K))
      linarith)
    hf hf2 hlo hle

end FastFader
